import Mathlib

/-!
# Skeletal mesh loading and pose evaluation (`mesh_skinning_glm.cpp`)

A shallow embedding of `load_md_mesh`, `update_skeleton`, `check_weights` and of the copy with
which `main` hands the bone matrices to the storage buffer after `update_skeleton`.

Conventions of the embedding.

* A C `float` is an element of a type `α`.  Arithmetic on it is whatever `Add α` and `Mul α`
  say, so every theorem below that assumes no law holds for IEEE-754 arithmetic as well as
  for exact arithmetic.  The few theorems that need arithmetic facts assume `ExactUnits`,
  seven equations between the constants `0` and `1` that IEEE-754 satisfies.
* Unsigned machine integers are `Nat`, `int` is `Int`, a byte is a `Nat`.
* A C array is a `List`; an access outside the array makes the embedded function return
  `none` (or `LoadResult.readOutOfBounds`), the total counterpart of undefined behaviour.
* The host is little-endian, as the file format assumes; structs have the sizes and field
  offsets of the usual ABI (no padding occurs in `Vertex`, `Bone` and `Node`).
* Assertions are enabled, `malloc` succeeds and the file has been read into `file_data`.
-/

namespace Vkal

/-! ## glm vectors and matrices -/

/-- Three floats: `glm::vec3`. -/
structure Vec3 (α : Type) where
  x : α
  y : α
  z : α
deriving DecidableEq, Repr

/-- Four floats: `glm::vec4`, the column type of `glm::mat4`. -/
structure Vec4 (α : Type) where
  x : α
  y : α
  z : α
  w : α
deriving DecidableEq, Repr

/-- Four columns: `glm::mat4` is column-major, `m[j]` is column `j`. -/
structure Mat4 (α : Type) where
  c0 : Vec4 α
  c1 : Vec4 α
  c2 : Vec4 α
  c3 : Vec4 α
deriving DecidableEq, Repr

/-- Componentwise `vec4 * scalar` of glm. -/
def Vec4.scale {α : Type} [Mul α] (v : Vec4 α) (s : α) : Vec4 α :=
  ⟨v.x * s, v.y * s, v.z * s, v.w * s⟩

/-- Componentwise `vec4 + vec4` of glm. -/
def Vec4.add {α : Type} [Add α] (u v : Vec4 α) : Vec4 α :=
  ⟨u.x + v.x, u.y + v.y, u.z + v.z, u.w + v.w⟩

/-- One column of glm's `mat4 * mat4`:
`SrcA0 * SrcB[0] + SrcA1 * SrcB[1] + SrcA2 * SrcB[2] + SrcA3 * SrcB[3]`, summed left to right. -/
def Mat4.mulCol {α : Type} [Add α] [Mul α] (a : Mat4 α) (b : Vec4 α) : Vec4 α :=
  (((a.c0.scale b.x).add (a.c1.scale b.y)).add (a.c2.scale b.z)).add (a.c3.scale b.w)

/-- Modelled from the spec: `glm::mat4 operator*`, which belongs to the glm library and not to
this repository ("4×4 affine transform multiplication, standard matrix product").  Column `j` of
`m1 * m2` is `m1` applied to column `j` of `m2`. -/
def Mat4.mul {α : Type} [Add α] [Mul α] (m1 m2 : Mat4 α) : Mat4 α :=
  ⟨m1.mulCol m2.c0, m1.mulCol m2.c1, m1.mulCol m2.c2, m1.mulCol m2.c3⟩

instance {α : Type} [Add α] [Mul α] : Mul (Mat4 α) := ⟨Mat4.mul⟩

/-- The matrix `glm::mat4(1)`: ones on the diagonal and zeros elsewhere. -/
def Mat4.identity {α : Type} [Zero α] [One α] : Mat4 α :=
  ⟨⟨1, 0, 0, 0⟩, ⟨0, 1, 0, 0⟩, ⟨0, 0, 1, 0⟩, ⟨0, 0, 0, 1⟩⟩

/-- Modelled from the spec: `glm::translate(m, v)` of the glm library, which keeps the first
three columns of `m` and sets the last one to `m[0] * v[0] + m[1] * v[1] + m[2] * v[2] + m[3]`. -/
def Mat4.translate {α : Type} [Add α] [Mul α] (m : Mat4 α) (v : Vec3 α) : Mat4 α :=
  ⟨m.c0, m.c1, m.c2, (((m.c0.scale v.x).add (m.c1.scale v.y)).add (m.c2.scale v.z)).add m.c3⟩

/-- The facts about `0` and `1` that the identity matrix needs.  IEEE-754 arithmetic satisfies
all seven, and so does every semiring. -/
class ExactUnits (α : Type) [Zero α] [One α] [Add α] [Mul α] : Prop where
  one_mul_one : (1 : α) * 1 = 1
  zero_mul_zero : (0 : α) * 0 = 0
  zero_mul_one : (0 : α) * 1 = 0
  one_mul_zero : (1 : α) * 0 = 0
  one_add_zero : (1 : α) + 0 = 1
  zero_add_zero : (0 : α) + 0 = 0
  zero_add_one : (0 : α) + 1 = 1

instance : ExactUnits Int where
  one_mul_one := by decide
  zero_mul_zero := by decide
  zero_mul_one := by decide
  one_mul_zero := by decide
  one_add_zero := by decide
  zero_add_zero := by decide
  zero_add_one := by decide

/-! ## The records of the source -/

/-- The constant `MAX_BONE_NAME_LENGTH`. -/
def MAX_BONE_NAME_LENGTH : Nat := 64

/-- A four-element C array (`bone_indices[4]`, `bone_weights[4]`). -/
structure Array4 (β : Type) where
  e0 : β
  e1 : β
  e2 : β
  e3 : β
deriving DecidableEq, Repr

/-- The record `Vertex`. -/
structure Vertex (α : Type) where
  pos : Vec3 α
  normal : Vec3 α
  color : Vec3 α
  bone_indices : Array4 Nat
  bone_weights : Array4 α
deriving DecidableEq, Repr

/-- The record `MdMeshHeader`. -/
structure MdMeshHeader where
  magic_number : Nat
  vertex_count : Nat
  index_count : Nat
  bone_count : Nat
  node_count : Nat
deriving DecidableEq, Repr

/-- The record `Bone`; `name` is the `char[64]` buffer as bytes. -/
structure Bone (α : Type) where
  name : List Nat
  offset_matrix : Mat4 α
  num_weights : Nat
deriving DecidableEq, Repr

/-- The record `Node`; `parent_index` is a C `int`, negative for a root. -/
structure Node where
  bone_index : Nat
  parent_index : Int
  name : List Nat
deriving DecidableEq, Repr

/-- The record `MdMesh`.  Each pointer field is the array it points to. -/
structure MdMesh (α : Type) where
  vertices : List (Vertex α)
  vertex_count : Nat
  vertex_buffer_offset : Nat
  indices : List Nat
  index_count : Nat
  index_buffer_offset : Nat
  bones : List (Bone α)
  bone_count : Nat
  animation_matrices : List (Mat4 α)
  tmp_matrices : List (Mat4 α)
  final_pose : List (Mat4 α)
  skeleton_nodes : List Node
  node_count : Nat
deriving DecidableEq, Repr

/-! ## `update_skeleton` -/

/-- The store `tmp_matrices[bone_index] = value` that iteration `i` of the first loop of
`update_skeleton` performs, given the current contents `tmp` of `tmp_matrices`; `none` when one
of the accesses of the iteration is outside its array. -/
def update_skeleton_iteration {α : Type} [Add α] [Mul α] (mesh : MdMesh α) (tmp : List (Mat4 α))
    (i : Nat) : Option (Nat × Mat4 α) :=
  match mesh.skeleton_nodes[i]? with
  | none => none
  | some node =>
    let parent_index := node.parent_index
    let bone_index := node.bone_index
    match mesh.animation_matrices[bone_index]?, mesh.bones[bone_index]? with
    | some local_transform, some _bone =>
      if parent_index ≥ 0 then
        match mesh.skeleton_nodes[parent_index.toNat]? with
        | none => none
        | some parent_node =>
          let parent_bone_index := parent_node.bone_index
          match tmp[parent_bone_index]? with
          | none => none
          | some parent_mat =>
            if bone_index < tmp.length then some (bone_index, parent_mat * local_transform)
            else none
      else
        if bone_index < tmp.length then some (bone_index, local_transform) else none
    | _, _ => none

/-- State of the first loop: the contents of `tmp_matrices` and, as a ghost log, the indices
stored to so far, oldest first. -/
structure PoseState (α : Type) where
  tmp : List (Mat4 α)
  writes : List Nat
deriving DecidableEq, Repr

/-- The first loop of `update_skeleton` after its first `k` iterations (`i = 0, ..., k - 1`). -/
def update_skeleton_pose {α : Type} [Add α] [Mul α] (mesh : MdMesh α) : Nat → Option (PoseState α)
  | 0 => some ⟨mesh.tmp_matrices, []⟩
  | k + 1 =>
    match update_skeleton_pose mesh k with
    | none => none
    | some s =>
      match update_skeleton_iteration mesh s.tmp k with
      | none => none
      | some (b, v) => some ⟨s.tmp.set b v, s.writes ++ [b]⟩

/-- The second loop of `update_skeleton` after its first `k` iterations.  Its body only reads
`skeleton_nodes[i]` and `bones[bone_index].offset_matrix` (the store is commented out), so all
it yields is whether those reads stayed inside their arrays. -/
def update_skeleton_offsets {α : Type} (mesh : MdMesh α) : Nat → Option Unit
  | 0 => some ()
  | k + 1 =>
    match update_skeleton_offsets mesh k with
    | none => none
    | some _ =>
      match mesh.skeleton_nodes[k]? with
      | none => none
      | some node =>
        match mesh.bones[node.bone_index]? with
        | none => none
        | some _bone => some ()

/-- The function `update_skeleton` with its ghost log of stores: both loops run for
`i < node_count`; only `tmp_matrices` changes. -/
def update_skeleton_run {α : Type} [Add α] [Mul α] (mesh : MdMesh α) :
    Option (MdMesh α × List Nat) :=
  match update_skeleton_pose mesh mesh.node_count with
  | none => none
  | some s =>
    match update_skeleton_offsets mesh mesh.node_count with
    | none => none
    | some _ => some ({ mesh with tmp_matrices := s.tmp }, s.writes)

/-- The function `update_skeleton`: the mesh it leaves behind, `none` if it accessed an array
out of bounds. -/
def update_skeleton {α : Type} [Add α] [Mul α] (mesh : MdMesh α) : Option (MdMesh α) :=
  (update_skeleton_run mesh).map Prod.fst

/-! ## Paths and ordered products -/

/-- The local matrices on the path from the root to the node at position `i`, root first: the
path of the parent followed by the node's own `animation_matrices` entry.  `fuel` bounds the
number of nodes on the path; `none` if it runs out or an index is outside its array. -/
def root_path_locals {α : Type} (mesh : MdMesh α) : Nat → Nat → Option (List (Mat4 α))
  | 0, _ => none
  | fuel + 1, i =>
    match mesh.skeleton_nodes[i]? with
    | none => none
    | some node =>
      match mesh.animation_matrices[node.bone_index]? with
      | none => none
      | some l =>
        if node.parent_index ≥ 0 then
          match root_path_locals mesh fuel node.parent_index.toNat with
          | none => none
          | some above => some (above ++ [l])
        else some [l]

/-- Multiply `m` onto a product accumulated so far, from the right; an empty product so far
gives `m` itself (no multiplication by an identity is performed). -/
def mul_onto {α : Type} [Add α] [Mul α] (acc : Option (Mat4 α)) (m : Mat4 α) : Mat4 α :=
  match acc with
  | none => m
  | some a => a * m

/-- The ordered product `m₀ × m₁ × ... × mₙ` of a list of matrices, first element leftmost,
associated to the left; `none` for the empty list. -/
def ordered_product {α : Type} [Add α] [Mul α] (ms : List (Mat4 α)) : Option (Mat4 α) :=
  ms.foldl (fun acc m => some (mul_onto acc m)) none

/-! ## Example meshes -/

/-- A 64-byte name buffer of zeros. -/
def blank_name : List Nat := List.replicate MAX_BONE_NAME_LENGTH 0

/-- The 3-node chain root (bone 0, no parent) → mid (bone 1, parent 0) → leaf (bone 2,
parent 1). -/
def chain_nodes : List Node :=
  [⟨0, -1, blank_name⟩, ⟨1, 0, blank_name⟩, ⟨2, 1, blank_name⟩]

/-- The chain as a mesh without geometry: three bones with identity offset matrices, the given
local matrices, and scratch arrays as `load_md_mesh` initialises them. -/
def chain_mesh {α : Type} [Zero α] [One α] (l0 l1 l2 : Mat4 α) : MdMesh α :=
  { vertices := [], vertex_count := 0, vertex_buffer_offset := 0,
    indices := [], index_count := 0, index_buffer_offset := 0,
    bones := List.replicate 3 ⟨blank_name, Mat4.identity, 0⟩, bone_count := 3,
    animation_matrices := [l0, l1, l2],
    tmp_matrices := List.replicate 3 Mat4.identity,
    final_pose := List.replicate 3 Mat4.identity,
    skeleton_nodes := chain_nodes, node_count := 3 }

/-- The vector `(0, 1, 0)`. -/
def up_vector {α : Type} [Zero α] [One α] : Vec3 α := ⟨0, 1, 0⟩

/-- The matrix `translate(0,1,0)`, that is `glm::translate(glm::mat4(1), glm::vec3(0,1,0))`. -/
def translate_up {α : Type} [Zero α] [One α] [Add α] [Mul α] : Mat4 α :=
  Mat4.translate Mat4.identity up_vector

/-! ## Well-formedness of a mesh -/

/-- The arrays that `update_skeleton` touches have the sizes `load_md_mesh` allocates:
`node_count` nodes are present, and `bones`, `animation_matrices` and `tmp_matrices` hold
`bone_count` entries each. -/
def MdMesh.Sized {α : Type} (mesh : MdMesh α) : Prop :=
  mesh.node_count ≤ mesh.skeleton_nodes.length ∧
  mesh.bones.length = mesh.bone_count ∧
  mesh.animation_matrices.length = mesh.bone_count ∧
  mesh.tmp_matrices.length = mesh.bone_count

instance {α : Type} (mesh : MdMesh α) : Decidable mesh.Sized := by
  unfold MdMesh.Sized; infer_instance

/-- Every node's `bone_index` is below `bone_count`. -/
def MdMesh.BonesInRange {α : Type} (mesh : MdMesh α) : Prop :=
  ∀ i, i < mesh.node_count → ∀ node ∈ mesh.skeleton_nodes[i]?, node.bone_index < mesh.bone_count

instance {α : Type} (mesh : MdMesh α) : Decidable mesh.BonesInRange := by
  unfold MdMesh.BonesInRange; infer_instance

/-- Parent-before-child order: the parent index of the node at position `i` is negative (a
root) or strictly below `i`. -/
def MdMesh.ParentBeforeChild {α : Type} (mesh : MdMesh α) : Prop :=
  ∀ i, i < mesh.node_count → ∀ node ∈ mesh.skeleton_nodes[i]?, node.parent_index < (i : Int)

instance {α : Type} (mesh : MdMesh α) : Decidable mesh.ParentBeforeChild := by
  unfold MdMesh.ParentBeforeChild; infer_instance

/-- Every node's parent index is negative or the position of one of the `node_count` nodes. -/
def MdMesh.ParentsInRange {α : Type} (mesh : MdMesh α) : Prop :=
  ∀ i, i < mesh.node_count → ∀ node ∈ mesh.skeleton_nodes[i]?,
    node.parent_index < (mesh.node_count : Int)

instance {α : Type} (mesh : MdMesh α) : Decidable mesh.ParentsInRange := by
  unfold MdMesh.ParentsInRange; infer_instance

/-- No two nodes (among the first `node_count`) carry the same `bone_index`. -/
def MdMesh.DistinctBones {α : Type} (mesh : MdMesh α) : Prop :=
  ∀ i, i < mesh.node_count → ∀ j, j < mesh.node_count →
    ∀ ni ∈ mesh.skeleton_nodes[i]?, ∀ nj ∈ mesh.skeleton_nodes[j]?,
      ni.bone_index = nj.bone_index → i = j

instance {α : Type} (mesh : MdMesh α) : Decidable mesh.DistinctBones := by
  unfold MdMesh.DistinctBones; infer_instance

/-- The recurrence of pose evaluation at node position `i`, read in the array `tmp`: a root's
entry is its local matrix, a child's entry is its parent's entry times its local matrix. -/
def PoseRecurrence {α : Type} [Add α] [Mul α] (mesh : MdMesh α) (tmp : List (Mat4 α)) (i : Nat) : Prop :=
  ∀ node, mesh.skeleton_nodes[i]? = some node →
    ∃ l, mesh.animation_matrices[node.bone_index]? = some l ∧
      (node.parent_index < 0 → tmp[node.bone_index]? = some l) ∧
      (0 ≤ node.parent_index → ∃ parent wp,
        mesh.skeleton_nodes[node.parent_index.toNat]? = some parent ∧
        tmp[parent.bone_index]? = some wp ∧
        tmp[node.bone_index]? = some (wp * l))

/-- Two meshes agree on the skeleton (nodes, bones, counts) and on the local animation
matrices; nothing is said of their scratch arrays. -/
def MdMesh.SameInputs {α : Type} (m1 m2 : MdMesh α) : Prop :=
  m2.skeleton_nodes = m1.skeleton_nodes ∧ m2.node_count = m1.node_count ∧
  m2.bones = m1.bones ∧ m2.bone_count = m1.bone_count ∧
  m2.animation_matrices = m1.animation_matrices

/-- One bone and no node: the bone's scratch entry is never stored to. -/
def unreferenced_bone_mesh (tmp0 : Mat4 Int) : MdMesh Int :=
  { vertices := [], vertex_count := 0, vertex_buffer_offset := 0,
    indices := [], index_count := 0, index_buffer_offset := 0,
    bones := [⟨blank_name, Mat4.identity, 0⟩], bone_count := 1,
    animation_matrices := [Mat4.identity],
    tmp_matrices := [tmp0],
    final_pose := [Mat4.identity],
    skeleton_nodes := [], node_count := 0 }

/-- One bone and one node that names itself as its parent. -/
def self_parent_mesh (tmp0 : Mat4 Int) : MdMesh Int :=
  { vertices := [], vertex_count := 0, vertex_buffer_offset := 0,
    indices := [], index_count := 0, index_buffer_offset := 0,
    bones := [⟨blank_name, Mat4.identity, 0⟩], bone_count := 1,
    animation_matrices := [Mat4.identity],
    tmp_matrices := [tmp0],
    final_pose := [Mat4.identity],
    skeleton_nodes := [⟨0, 0, blank_name⟩], node_count := 1 }

instance {α : Type} [DecidableEq α] (m1 m2 : MdMesh α) : Decidable (m1.SameInputs m2) := by
  unfold MdMesh.SameInputs; infer_instance

/-- One bone and two root nodes that both carry bone index 0. -/
def twin_mesh : MdMesh Int :=
  { vertices := [], vertex_count := 0, vertex_buffer_offset := 0,
    indices := [], index_count := 0, index_buffer_offset := 0,
    bones := [⟨blank_name, Mat4.identity, 0⟩], bone_count := 1,
    animation_matrices := [Mat4.identity],
    tmp_matrices := [Mat4.identity],
    final_pose := [Mat4.identity],
    skeleton_nodes := [⟨0, -1, blank_name⟩, ⟨0, -1, blank_name⟩], node_count := 2 }

/-! ## The copy to the storage buffer in `main` -/

/-- The contents that `main` gives `storage_buffer_skeleton_matrices` from the call
`update_skeleton(&md_mesh)` on: that call, and then the `memcpy` of `bone_count` matrices out of
`md_mesh.tmp_matrices` into the mapped buffer; `none` if an access is outside its array.
`mesh` is the mesh as it stands when `update_skeleton` is called.  What comes before the call
in the frame is no part of this definition: there `main` assigns `animation_matrices[14]` and
`animation_matrices[3]`, each computed from the offset matrix of its bone, so the animation
matrices of `mesh` are an input here, whatever they were computed from. -/
def storage_buffer_skeleton_matrices {α : Type} [Add α] [Mul α] (mesh : MdMesh α) :
    Option (List (Mat4 α)) :=
  match update_skeleton mesh with
  | none => none
  | some out =>
    if out.bone_count ≤ out.tmp_matrices.length then
      some (out.tmp_matrices.take out.bone_count)
    else none

/-- The matrix `translate(0,-1,0)` over the integers. -/
def translate_down : Mat4 Int := Mat4.translate Mat4.identity ⟨0, -1, 0⟩

/-- One root node and one bone whose offset matrix is `translate(0,1,0)`; the local matrix is
the identity. -/
def offset_bone_mesh : MdMesh Int :=
  { vertices := [], vertex_count := 0, vertex_buffer_offset := 0,
    indices := [], index_count := 0, index_buffer_offset := 0,
    bones := [⟨blank_name, translate_up, 0⟩], bone_count := 1,
    animation_matrices := [Mat4.identity],
    tmp_matrices := [Mat4.identity],
    final_pose := [Mat4.identity],
    skeleton_nodes := [⟨0, -1, blank_name⟩], node_count := 1 }

/-- The 3-node chain over the integers with `translate(0,1,0)` as the offset matrix of every
bone and as the local matrix of the root; the other local matrices are the identity. -/
def offset_chain_mesh : MdMesh Int :=
  { chain_mesh (translate_up : Mat4 Int) Mat4.identity Mat4.identity with
    bones := List.replicate 3 ⟨blank_name, translate_up, 0⟩ }

/-! ## Object representations -/

/-- The object representation of a C `float`: `toBits` is the 32-bit pattern a value is
stored as, `ofBits` the value a pattern is read back as. -/
class FloatBits (α : Type) where
  toBits : α → Nat
  ofBits : Nat → α

/-- A value survives being stored and read back.  Every `float` does; the class leaves it as a
property of the single value so that stand-in scalar types can be used as well. -/
def FloatBits.Exact {α : Type} [FloatBits α] (x : α) : Prop :=
  FloatBits.toBits x < 4294967296 ∧ FloatBits.ofBits (FloatBits.toBits x) = x

/-- Integers as stand-in scalars: the pattern of an integer is its two's complement. -/
instance : FloatBits Int where
  toBits x := (x % 4294967296).toNat
  ofBits n := if n < 2147483648 then (n : Int) else (n : Int) - 4294967296

instance {α : Type} [FloatBits α] [DecidableEq α] (x : α) : Decidable (FloatBits.Exact x) := by
  unfold FloatBits.Exact; infer_instance

/-- The bytes `rec[off], ..., rec[off + len - 1]` of a record. -/
def field (rec : List Nat) (off len : Nat) : List Nat := (rec.drop off).take len

/-- A little-endian `uint16_t` read from its two bytes. -/
def le_u16 : List Nat → Nat
  | b0 :: b1 :: _ => b0 + 256 * b1
  | _ => 0

/-- A little-endian `uint32_t` read from its four bytes. -/
def le_u32 : List Nat → Nat
  | b0 :: b1 :: b2 :: b3 :: _ => b0 + 256 * b1 + 65536 * b2 + 16777216 * b3
  | _ => 0

/-- A little-endian two's complement `int` read from its four bytes. -/
def le_i32 (bytes : List Nat) : Int :=
  if le_u32 bytes < 2147483648 then (le_u32 bytes : Int) else (le_u32 bytes : Int) - 4294967296

/-- A `float` read from its four bytes. -/
def le_f32 {α : Type} [FloatBits α] (bytes : List Nat) : α := FloatBits.ofBits (le_u32 bytes)

/-- A `glm::vec3` read from its 12 bytes. -/
def decode_vec3 {α : Type} [FloatBits α] (rec : List Nat) : Vec3 α :=
  ⟨le_f32 (field rec 0 4), le_f32 (field rec 4 4), le_f32 (field rec 8 4)⟩

/-- A `glm::vec4` read from its 16 bytes. -/
def decode_vec4 {α : Type} [FloatBits α] (rec : List Nat) : Vec4 α :=
  ⟨le_f32 (field rec 0 4), le_f32 (field rec 4 4), le_f32 (field rec 8 4),
   le_f32 (field rec 12 4)⟩

/-- A `glm::mat4` read from its 64 bytes: the four columns one after another. -/
def decode_mat4 {α : Type} [FloatBits α] (rec : List Nat) : Mat4 α :=
  ⟨decode_vec4 (field rec 0 16), decode_vec4 (field rec 16 16), decode_vec4 (field rec 32 16),
   decode_vec4 (field rec 48 16)⟩

/-- The size `sizeof(MdMeshHeader)`: five `uint32_t`. -/
def sizeof_MdMeshHeader : Nat := 20

/-- The size `sizeof(Vertex)`: `3*sizeof(glm::vec3) + 4*sizeof(uint32_t) + 4*sizeof(float)`. -/
def sizeof_Vertex : Nat := 68

/-- The size `sizeof(uint16_t)`. -/
def sizeof_index : Nat := 2

/-- The size `sizeof(Bone)`: 64 name bytes, a `glm::mat4` and a `uint32_t`. -/
def sizeof_Bone : Nat := 132

/-- The size `sizeof(Node)`: a `uint32_t`, an `int` and 64 name bytes. -/
def sizeof_Node : Nat := 72

/-- A `Vertex` as laid out in memory: `pos` at 0, `normal` at 12, `color` at 24,
`bone_indices` at 36 and `bone_weights` at 52 (the offsets of the vertex attribute table of
`main`). -/
def decode_Vertex {α : Type} [FloatBits α] (rec : List Nat) : Vertex α :=
  { pos := decode_vec3 (field rec 0 12),
    normal := decode_vec3 (field rec 12 12),
    color := decode_vec3 (field rec 24 12),
    bone_indices := ⟨le_u32 (field rec 36 4), le_u32 (field rec 40 4), le_u32 (field rec 44 4),
      le_u32 (field rec 48 4)⟩,
    bone_weights := ⟨le_f32 (field rec 52 4), le_f32 (field rec 56 4), le_f32 (field rec 60 4),
      le_f32 (field rec 64 4)⟩ }

/-- A `Bone` as laid out in memory: `name` at 0, `offset_matrix` at 64, `num_weights` at 128. -/
def decode_Bone {α : Type} [FloatBits α] (rec : List Nat) : Bone α :=
  { name := field rec 0 MAX_BONE_NAME_LENGTH,
    offset_matrix := decode_mat4 (field rec 64 64),
    num_weights := le_u32 (field rec 128 4) }

/-- A `Node` as laid out in memory: `bone_index` at 0, `parent_index` at 4, `name` at 8. -/
def decode_Node (rec : List Nat) : Node :=
  { bone_index := le_u32 (field rec 0 4),
    parent_index := le_i32 (field rec 4 4),
    name := field rec 8 MAX_BONE_NAME_LENGTH }

/-- The first `count` records of `size` bytes each, read one after another from `bytes`: what
`memcpy` into a typed array of `count` elements yields. -/
def decode_array {β : Type} (decode : List Nat → β) (size : Nat) : Nat → List Nat → List β
  | 0, _ => []
  | count + 1, bytes => decode (bytes.take size) :: decode_array decode size count (bytes.drop size)

/-! ## `load_md_mesh` -/

/-- How a call of `load_md_mesh` ends.  `assertFailed` is the abort of
`assert(0xAABBCCDD == header->magic_number)`; `readOutOfBounds` stands for a read beyond the
`file_size` bytes of `file_data`, which the function does not check for and which is undefined
behaviour in C. -/
inductive LoadResult (α : Type) where
  | loaded (mesh : MdMesh α)
  | assertFailed
  | readOutOfBounds
deriving DecidableEq, Repr

/-- The function `load_md_mesh` from the point where the file's bytes are in `file_data`.
Allocation is taken to succeed.  Sections are addressed by byte offset: `vertex_data` follows
the header, `index_data` follows `vertex_count` vertices, `bones` follows `index_count` indices
and `skeleton_nodes` follows `bone_count` bones. -/
def load_md_mesh {α : Type} [Zero α] [One α] [FloatBits α] (file_data : List Nat) :
    LoadResult α :=
  let file_size := file_data.length
  if file_size < 4 then LoadResult.readOutOfBounds else
  let magic_number := le_u32 (field file_data 0 4)
  if 0xAABBCCDD ≠ magic_number then LoadResult.assertFailed else
  if file_size < sizeof_MdMeshHeader then LoadResult.readOutOfBounds else
  let vertex_count := le_u32 (field file_data 4 4)
  let index_count := le_u32 (field file_data 8 4)
  let bone_count := le_u32 (field file_data 12 4)
  let node_count := le_u32 (field file_data 16 4)
  let vertex_data := sizeof_MdMeshHeader
  if file_size < vertex_data + vertex_count * sizeof_Vertex then LoadResult.readOutOfBounds else
  let index_data := vertex_data + vertex_count * sizeof_Vertex
  if file_size < index_data + index_count * sizeof_index then LoadResult.readOutOfBounds else
  let bones := index_data + index_count * sizeof_index
  if file_size < bones + bone_count * sizeof_Bone then LoadResult.readOutOfBounds else
  let skeleton_nodes := bones + bone_count * sizeof_Bone
  if file_size < skeleton_nodes + node_count * sizeof_Node then LoadResult.readOutOfBounds else
  LoadResult.loaded
    { vertices := decode_array decode_Vertex sizeof_Vertex vertex_count
        (file_data.drop vertex_data),
      vertex_count := vertex_count,
      vertex_buffer_offset := 0,
      indices := decode_array le_u16 sizeof_index index_count (file_data.drop index_data),
      index_count := index_count,
      index_buffer_offset := 0,
      bones := decode_array decode_Bone sizeof_Bone bone_count (file_data.drop bones),
      bone_count := bone_count,
      animation_matrices := List.replicate bone_count Mat4.identity,
      tmp_matrices := List.replicate bone_count Mat4.identity,
      final_pose := List.replicate bone_count Mat4.identity,
      skeleton_nodes := decode_array decode_Node sizeof_Node node_count
        (file_data.drop skeleton_nodes),
      node_count := node_count }

/-! ## Building a buffer from known arrays -/

/-- The two bytes of a `uint16_t`, low byte first. -/
def encode_u16 (n : Nat) : List Nat := [n % 256, n / 256 % 256]

/-- The four bytes of a `uint32_t`, low byte first. -/
def encode_u32 (n : Nat) : List Nat :=
  [n % 256, n / 256 % 256, n / 65536 % 256, n / 16777216 % 256]

/-- The four bytes of an `int` in two's complement, low byte first. -/
def encode_i32 (p : Int) : List Nat := encode_u32 (p % 4294967296).toNat

/-- The four bytes of a `float`. -/
def encode_f32 {α : Type} [FloatBits α] (x : α) : List Nat := encode_u32 (FloatBits.toBits x)

/-- The 12 bytes of a `glm::vec3`. -/
def encode_vec3 {α : Type} [FloatBits α] (v : Vec3 α) : List Nat :=
  encode_f32 v.x ++ encode_f32 v.y ++ encode_f32 v.z

/-- The 16 bytes of a `glm::vec4`. -/
def encode_vec4 {α : Type} [FloatBits α] (v : Vec4 α) : List Nat :=
  encode_f32 v.x ++ encode_f32 v.y ++ encode_f32 v.z ++ encode_f32 v.w

/-- The 64 bytes of a `glm::mat4`, column after column. -/
def encode_mat4 {α : Type} [FloatBits α] (m : Mat4 α) : List Nat :=
  encode_vec4 m.c0 ++ encode_vec4 m.c1 ++ encode_vec4 m.c2 ++ encode_vec4 m.c3

/-- The 20-byte header: magic and the four counts. -/
def encode_header (h : MdMeshHeader) : List Nat :=
  encode_u32 h.magic_number ++ encode_u32 h.vertex_count ++ encode_u32 h.index_count ++
    encode_u32 h.bone_count ++ encode_u32 h.node_count

/-- The 68-byte vertex record. -/
def encode_Vertex {α : Type} [FloatBits α] (v : Vertex α) : List Nat :=
  encode_vec3 v.pos ++ encode_vec3 v.normal ++ encode_vec3 v.color ++
    (encode_u32 v.bone_indices.e0 ++ encode_u32 v.bone_indices.e1 ++
      encode_u32 v.bone_indices.e2 ++ encode_u32 v.bone_indices.e3) ++
    (encode_f32 v.bone_weights.e0 ++ encode_f32 v.bone_weights.e1 ++
      encode_f32 v.bone_weights.e2 ++ encode_f32 v.bone_weights.e3)

/-- The 132-byte bone record. -/
def encode_Bone {α : Type} [FloatBits α] (b : Bone α) : List Nat :=
  b.name ++ encode_mat4 b.offset_matrix ++ encode_u32 b.num_weights

/-- The 72-byte node record. -/
def encode_Node (n : Node) : List Nat :=
  encode_u32 n.bone_index ++ encode_i32 n.parent_index ++ n.name

/-- The magic constant of the format. -/
def md_magic : Nat := 0xAABBCCDD

/-- The buffer built from known arrays: the header with the four lengths as counts, followed
without padding by the vertex, index, bone and node records. -/
def build_buffer {α : Type} [FloatBits α] (vertices : List (Vertex α)) (indices : List Nat)
    (bones : List (Bone α)) (nodes : List Node) : List Nat :=
  encode_header ⟨md_magic, vertices.length, indices.length, bones.length, nodes.length⟩ ++
    vertices.flatMap encode_Vertex ++ indices.flatMap encode_u16 ++
    bones.flatMap encode_Bone ++ nodes.flatMap encode_Node

/-- The three floats of a `glm::vec3` survive a store and a load. -/
def Vec3.Exact {α : Type} [FloatBits α] (v : Vec3 α) : Prop :=
  FloatBits.Exact v.x ∧ FloatBits.Exact v.y ∧ FloatBits.Exact v.z

/-- The four floats of a `glm::vec4` survive a store and a load. -/
def Vec4.Exact {α : Type} [FloatBits α] (v : Vec4 α) : Prop :=
  FloatBits.Exact v.x ∧ FloatBits.Exact v.y ∧ FloatBits.Exact v.z ∧ FloatBits.Exact v.w

/-- The sixteen floats of a `glm::mat4` survive a store and a load. -/
def Mat4.Exact {α : Type} [FloatBits α] (m : Mat4 α) : Prop :=
  m.c0.Exact ∧ m.c1.Exact ∧ m.c2.Exact ∧ m.c3.Exact

instance {α : Type} [FloatBits α] [DecidableEq α] (v : Vec3 α) : Decidable v.Exact := by
  unfold Vec3.Exact; infer_instance

instance {α : Type} [FloatBits α] [DecidableEq α] (v : Vec4 α) : Decidable v.Exact := by
  unfold Vec4.Exact; infer_instance

instance {α : Type} [FloatBits α] [DecidableEq α] (m : Mat4 α) : Decidable m.Exact := by
  unfold Mat4.Exact; infer_instance

/-- The fields of a `Vertex` are values of their C types: the bone indices fit `uint32_t`. -/
def Vertex.WellTyped {α : Type} [FloatBits α] (v : Vertex α) : Prop :=
  v.pos.Exact ∧ v.normal.Exact ∧ v.color.Exact ∧
  (v.bone_indices.e0 < 4294967296 ∧ v.bone_indices.e1 < 4294967296 ∧
    v.bone_indices.e2 < 4294967296 ∧ v.bone_indices.e3 < 4294967296) ∧
  (FloatBits.Exact v.bone_weights.e0 ∧ FloatBits.Exact v.bone_weights.e1 ∧
    FloatBits.Exact v.bone_weights.e2 ∧ FloatBits.Exact v.bone_weights.e3)

instance {α : Type} [FloatBits α] [DecidableEq α] (v : Vertex α) : Decidable v.WellTyped := by
  unfold Vertex.WellTyped; infer_instance

/-- The fields of a `Bone` are values of their C types: the name buffer holds 64 bytes and
`num_weights` fits `uint32_t`. -/
def Bone.WellTyped {α : Type} [FloatBits α] (b : Bone α) : Prop :=
  b.name.length = MAX_BONE_NAME_LENGTH ∧ b.offset_matrix.Exact ∧ b.num_weights < 4294967296

instance {α : Type} [FloatBits α] [DecidableEq α] (b : Bone α) : Decidable b.WellTyped := by
  unfold Bone.WellTyped; infer_instance

/-- The fields of a `Node` are values of their C types: `bone_index` fits `uint32_t`,
`parent_index` fits `int` and the name buffer holds 64 bytes. -/
def Node.WellTyped (n : Node) : Prop :=
  n.bone_index < 4294967296 ∧
  (-2147483648 ≤ n.parent_index ∧ n.parent_index < 2147483648) ∧
  n.name.length = MAX_BONE_NAME_LENGTH

instance (n : Node) : Decidable n.WellTyped := by
  unfold Node.WellTyped; infer_instance

/-- The four arrays are arrays of their C types and their lengths fit the `uint32_t` counts of
the header. -/
def WellTypedArrays {α : Type} [FloatBits α] (vertices : List (Vertex α)) (indices : List Nat)
    (bones : List (Bone α)) (nodes : List Node) : Prop :=
  (vertices.length < 4294967296 ∧ indices.length < 4294967296 ∧
    bones.length < 4294967296 ∧ nodes.length < 4294967296) ∧
  (∀ v ∈ vertices, v.WellTyped) ∧ (∀ i ∈ indices, i < 65536) ∧
  (∀ b ∈ bones, b.WellTyped) ∧ (∀ n ∈ nodes, n.WellTyped)

instance {α : Type} [FloatBits α] [DecidableEq α] (vertices : List (Vertex α))
    (indices : List Nat) (bones : List (Bone α)) (nodes : List Node) :
    Decidable (WellTypedArrays vertices indices bones nodes) := by
  unfold WellTypedArrays; infer_instance

/-- A triangle: three vertices bound to bone 0 or 1 with full weight. -/
def triangle_vertices : List (Vertex Int) :=
  [⟨⟨0, 0, 0⟩, ⟨0, 0, 1⟩, ⟨1, 0, 0⟩, ⟨0, 0, 0, 0⟩, ⟨1, 0, 0, 0⟩⟩,
   ⟨⟨1, 0, 0⟩, ⟨0, 0, 1⟩, ⟨0, 1, 0⟩, ⟨0, 1, 0, 0⟩, ⟨1, 0, 0, 0⟩⟩,
   ⟨⟨0, -1, 0⟩, ⟨0, 0, 1⟩, ⟨0, 0, 1⟩, ⟨1, 0, 0, 0⟩, ⟨1, 0, 0, 0⟩⟩]

/-- The index list of the triangle. -/
def triangle_indices : List Nat := [0, 1, 2]

/-- Two bones, the second with offset matrix `translate(0,1,0)`. -/
def two_bones : List (Bone Int) :=
  [⟨blank_name, Mat4.identity, 2⟩, ⟨blank_name, translate_up, 1⟩]

/-- A root node for bone 0 and its child for bone 1. -/
def two_nodes : List Node := [⟨0, -1, blank_name⟩, ⟨1, 0, blank_name⟩]

/-- The load-time failures the spec names. -/
inductive LoadError where
  | FormatError
  | TruncatedInputError
  | InvalidHierarchyError
deriving DecidableEq, Repr

/-- The mesh a call of `load_md_mesh` returns, if it returns one. -/
def LoadResult.mesh? {α : Type} : LoadResult α → Option (MdMesh α)
  | LoadResult.loaded mesh => some mesh
  | _ => none

/-- The failure of the spec's taxonomy that a call of `load_md_mesh` reports.  The failed
assertion on the magic number is the only failure the function signals, and it is the spec's
`FormatError`; a read out of bounds is not reported, it is undefined behaviour. -/
def LoadResult.error? {α : Type} : LoadResult α → Option LoadError
  | LoadResult.assertFailed => some LoadError.FormatError
  | _ => none

/-- The number of bytes that the counts declared in the header of `file_data` require:
`20 + 68*vertexCount + 2*indexCount + 132*boneCount + 72*nodeCount`. -/
def required_size (file_data : List Nat) : Nat :=
  20 + 68 * le_u32 (field file_data 4 4) + 2 * le_u32 (field file_data 8 4) +
    132 * le_u32 (field file_data 12 4) + 72 * le_u32 (field file_data 16 4)

/-- Three bones with identity offset matrices. -/
def three_bones : List (Bone Int) := List.replicate 3 ⟨blank_name, Mat4.identity, 0⟩

/-- Root, child of the root, and at position 2 a node with the given parent index. -/
def nodes_with_parent (parent_index : Int) : List Node :=
  [⟨0, -1, blank_name⟩, ⟨1, 0, blank_name⟩, ⟨2, parent_index, blank_name⟩]

/-- The mesh without geometry that has `three_bones` and the given nodes, as loaded. -/
def skeleton_mesh (nodes : List Node) : MdMesh Int :=
  { vertices := [], vertex_count := 0, vertex_buffer_offset := 0,
    indices := [], index_count := 0, index_buffer_offset := 0,
    bones := three_bones, bone_count := 3,
    animation_matrices := List.replicate 3 Mat4.identity,
    tmp_matrices := List.replicate 3 Mat4.identity,
    final_pose := List.replicate 3 Mat4.identity,
    skeleton_nodes := nodes, node_count := nodes.length }

/-! ## `check_weights` -/

/-- The arguments `(i, sum)` of the `printf` call in iteration `i` of `check_weights`, where
`sum = w0 + w1 + w2 + w3` is added up left to right; `none` if `vertex[i]` is outside the
array. -/
def check_weights_iteration {α : Type} [Add α] (mesh : MdMesh α) (i : Nat) : Option (Nat × α) :=
  match mesh.vertices[i]? with
  | none => none
  | some vertex =>
    let w0 := vertex.bone_weights.e0
    let w1 := vertex.bone_weights.e1
    let w2 := vertex.bone_weights.e2
    let w3 := vertex.bone_weights.e3
    let sum := w0 + w1 + w2 + w3
    some (i, sum)

/-- The lines printed by the first `k` iterations of the loop of `check_weights`
(`i = 0, ..., k - 1`), oldest first. -/
def check_weights_lines {α : Type} [Add α] (mesh : MdMesh α) : Nat → Option (List (Nat × α))
  | 0 => some []
  | k + 1 =>
    match check_weights_lines mesh k with
    | none => none
    | some lines =>
      match check_weights_iteration mesh k with
      | none => none
      | some line => some (lines ++ [line])

/-- The function `check_weights`: the mesh it leaves behind (it stores nothing) and all it
produces, the lines "Vertex i Weight Sum: sum" it prints for `i < vertex_count`; the function
returns `void`.  `none` if it read a vertex out of bounds. -/
def check_weights {α : Type} [Add α] (mesh : MdMesh α) : Option (MdMesh α × List (Nat × α)) :=
  match check_weights_lines mesh mesh.vertex_count with
  | none => none
  | some lines => some (mesh, lines)

/-- The sum `weightSum(vertex)` of the spec: the four bone weights added up. -/
def weightSum {α : Type} [Add α] (vertex : Vertex α) : α :=
  vertex.bone_weights.e0 + vertex.bone_weights.e1 + vertex.bone_weights.e2 +
    vertex.bone_weights.e3

/-- Modelled from the spec: the warning list of the diagnostic, which the source does not
have ("flag vertices whose influence weights do not sum to ≈1 ... reported as a warning list
keyed by vertex index").  `anomalous` is the tolerance test on a sum. -/
def weight_warnings {α : Type} [Add α] (anomalous : α → Bool) (vertices : List (Vertex α)) :
    List Nat :=
  (List.range vertices.length).filter fun i =>
    match vertices[i]? with
    | none => false
    | some vertex => anomalous (weightSum vertex)

/-- A vertex at the origin with the given bone weights. -/
def weighted_vertex {α : Type} [Zero α] (w0 w1 w2 w3 : α) : Vertex α :=
  ⟨⟨0, 0, 0⟩, ⟨0, 0, 0⟩, ⟨0, 0, 0⟩, ⟨0, 0, 0, 0⟩, ⟨w0, w1, w2, w3⟩⟩

/-- A mesh that consists of the given vertices only. -/
def vertex_mesh {α : Type} (vertices : List (Vertex α)) : MdMesh α :=
  { vertices := vertices, vertex_count := vertices.length, vertex_buffer_offset := 0,
    indices := [], index_count := 0, index_buffer_offset := 0,
    bones := [], bone_count := 0,
    animation_matrices := [], tmp_matrices := [], final_pose := [],
    skeleton_nodes := [], node_count := 0 }

/-! ## Descendants in the parent relation -/

/-- Whether the node at position `i` is a node that carries bone index `k` or a descendant of
such a node in the parent relation: some node on the way from `i` up to its root carries `k`.
`fuel` bounds the number of nodes visited; `i + 1` suffices in a parent-before-child
sequence. -/
def under_bone {α : Type} (mesh : MdMesh α) (k : Nat) : Nat → Nat → Bool
  | 0, _ => false
  | fuel + 1, i =>
    match mesh.skeleton_nodes[i]? with
    | none => false
    | some node =>
      node.bone_index == k ||
        (decide (node.parent_index ≥ 0) && under_bone mesh k fuel node.parent_index.toNat)

/-! # Theorems -/

/-! ## Lemmas on the loops of `update_skeleton` -/

section PoseLemmas

variable {α : Type} [Add α] [Mul α]

theorem iteration_root {mesh : MdMesh α} {tmp : List (Mat4 α)} {i : Nat} {node : Node}
    {l : Mat4 α} {bone : Bone α}
    (hn : mesh.skeleton_nodes[i]? = some node)
    (hl : mesh.animation_matrices[node.bone_index]? = some l)
    (hb : mesh.bones[node.bone_index]? = some bone)
    (ht : node.bone_index < tmp.length) (hp : node.parent_index < 0) :
    update_skeleton_iteration mesh tmp i = some (node.bone_index, l) := by
  have hp2 : ¬ node.parent_index ≥ 0 := by omega
  simp [update_skeleton_iteration, hn, hl, hb, ht, hp2]

theorem iteration_child {mesh : MdMesh α} {tmp : List (Mat4 α)} {i : Nat} {node parent : Node}
    {l wp : Mat4 α} {bone : Bone α}
    (hn : mesh.skeleton_nodes[i]? = some node)
    (hl : mesh.animation_matrices[node.bone_index]? = some l)
    (hb : mesh.bones[node.bone_index]? = some bone)
    (ht : node.bone_index < tmp.length) (hp : 0 ≤ node.parent_index)
    (hpn : mesh.skeleton_nodes[node.parent_index.toNat]? = some parent)
    (hw : tmp[parent.bone_index]? = some wp) :
    update_skeleton_iteration mesh tmp i = some (node.bone_index, wp * l) := by
  have hp2 : node.parent_index ≥ 0 := hp
  simp [update_skeleton_iteration, hn, hl, hb, ht, hp2, hpn, hw]

omit [Add α] [Mul α] in
theorem MdMesh.ParentBeforeChild.parentsInRange {mesh : MdMesh α}
    (hp : mesh.ParentBeforeChild) : mesh.ParentsInRange := by
  intro i hi node hn
  have := hp i hi node hn
  omega

/-- All that one iteration of the first loop does on a mesh with in-range indices: it finds its
node and its local matrix and stores once, either the local matrix (root) or the product of the
parent's current entry and the local matrix (child). -/
theorem pose_step {mesh : MdMesh α} (hs : mesh.Sized) (hr : mesh.BonesInRange)
    (hq : mesh.ParentsInRange) {k : Nat} (hk : k < mesh.node_count) {s : PoseState α}
    (hrun : update_skeleton_pose mesh k = some s) (hlen : s.tmp.length = mesh.bone_count) :
    ∃ node l, mesh.skeleton_nodes[k]? = some node ∧
      mesh.animation_matrices[node.bone_index]? = some l ∧
      node.bone_index < mesh.bone_count ∧
      ((node.parent_index < 0 ∧
          update_skeleton_pose mesh (k + 1)
            = some ⟨s.tmp.set node.bone_index l, s.writes ++ [node.bone_index]⟩) ∨
       (0 ≤ node.parent_index ∧ ∃ parent wp,
          mesh.skeleton_nodes[node.parent_index.toNat]? = some parent ∧
          s.tmp[parent.bone_index]? = some wp ∧
          update_skeleton_pose mesh (k + 1)
            = some ⟨s.tmp.set node.bone_index (wp * l), s.writes ++ [node.bone_index]⟩)) := by
  obtain ⟨hsn, hsb, hsa, _⟩ := hs
  have hkn : k < mesh.skeleton_nodes.length := by omega
  have hn : mesh.skeleton_nodes[k]? = some mesh.skeleton_nodes[k] := List.getElem?_eq_getElem hkn
  generalize mesh.skeleton_nodes[k] = node at hn
  have hb : node.bone_index < mesh.bone_count := hr k hk node hn
  have hl : mesh.animation_matrices[node.bone_index]?
      = some mesh.animation_matrices[node.bone_index] :=
    List.getElem?_eq_getElem (by omega)
  have hbn : mesh.bones[node.bone_index]? = some mesh.bones[node.bone_index] :=
    List.getElem?_eq_getElem (by omega)
  refine ⟨node, _, hn, hl, hb, ?_⟩
  have ht : node.bone_index < s.tmp.length := by omega
  by_cases hpar : node.parent_index < 0
  · left
    refine ⟨hpar, ?_⟩
    simp only [update_skeleton_pose, hrun, iteration_root hn hl hbn ht hpar]
  · right
    have hpar0 : 0 ≤ node.parent_index := by omega
    have hlt : node.parent_index < (mesh.node_count : Int) := hq k hk node hn
    have hpn : mesh.skeleton_nodes[node.parent_index.toNat]?
        = some mesh.skeleton_nodes[node.parent_index.toNat] :=
      List.getElem?_eq_getElem (by omega)
    generalize mesh.skeleton_nodes[node.parent_index.toNat] = parent at hpn
    have hpb : parent.bone_index < mesh.bone_count :=
      hr node.parent_index.toNat (by omega) parent hpn
    have hw : s.tmp[parent.bone_index]? = some s.tmp[parent.bone_index] :=
      List.getElem?_eq_getElem (by omega)
    refine ⟨hpar0, parent, _, hpn, hw, ?_⟩
    simp only [update_skeleton_pose, hrun, iteration_child hn hl hbn ht hpar0 hpn hw]

/-- The first loop runs to completion on a well-formed mesh, keeps the length of
`tmp_matrices`, and stores to the bone indices of the nodes, in sequence order. -/
theorem pose_total {mesh : MdMesh α} (hs : mesh.Sized) (hr : mesh.BonesInRange)
    (hq : mesh.ParentsInRange) (k : Nat) (hk : k ≤ mesh.node_count) :
    ∃ s, update_skeleton_pose mesh k = some s ∧ s.tmp.length = mesh.bone_count ∧
      s.writes = (mesh.skeleton_nodes.take k).map Node.bone_index := by
  induction k with
  | zero => exact ⟨_, rfl, hs.2.2.2, by simp⟩
  | succ k ih =>
    obtain ⟨s, hrun, hlen, hw⟩ := ih (by omega)
    obtain ⟨node, l, hn, _, _, hcase⟩ := pose_step hs hr hq (by omega) hrun hlen
    have htake : (mesh.skeleton_nodes.take (k + 1)).map Node.bone_index
        = s.writes ++ [node.bone_index] := by
      simp [List.take_succ, hn, hw]
    rcases hcase with ⟨_, hnext⟩ | ⟨_, parent, wp, _, _, hnext⟩
    · exact ⟨_, hnext, by simp [hlen], htake.symm⟩
    · exact ⟨_, hnext, by simp [hlen], htake.symm⟩

omit [Add α] [Mul α] in
/-- The second loop reads nothing the first loop has not read. -/
theorem offsets_total {mesh : MdMesh α} (hs : mesh.Sized) (hr : mesh.BonesInRange)
    (k : Nat) (hk : k ≤ mesh.node_count) : update_skeleton_offsets mesh k = some () := by
  induction k with
  | zero => rfl
  | succ k ih =>
    obtain ⟨hsn, hsb, _, _⟩ := hs
    have hn : mesh.skeleton_nodes[k]? = some mesh.skeleton_nodes[k] :=
      List.getElem?_eq_getElem (by omega)
    generalize mesh.skeleton_nodes[k] = node at hn
    have hb : node.bone_index < mesh.bone_count := hr k (by omega) node hn
    have hbn : mesh.bones[node.bone_index]? = some mesh.bones[node.bone_index] :=
      List.getElem?_eq_getElem (by omega)
    simp only [update_skeleton_offsets, ih (by omega), hn, hbn]

/-- On a well-formed mesh `update_skeleton` returns, and what it returns is the input with
`tmp_matrices` replaced by the outcome of the first loop. -/
theorem update_skeleton_run_eq {mesh : MdMesh α} (hs : mesh.Sized) (hr : mesh.BonesInRange)
    (hq : mesh.ParentsInRange) :
    ∃ s, update_skeleton_pose mesh mesh.node_count = some s ∧
      s.tmp.length = mesh.bone_count ∧
      s.writes = (mesh.skeleton_nodes.take mesh.node_count).map Node.bone_index ∧
      update_skeleton_run mesh = some ({ mesh with tmp_matrices := s.tmp }, s.writes) ∧
      update_skeleton mesh = some { mesh with tmp_matrices := s.tmp } := by
  obtain ⟨s, hrun, hlen, hw⟩ := pose_total hs hr hq mesh.node_count (le_refl _)
  have hoff := offsets_total hs hr mesh.node_count (le_refl _)
  have h1 : update_skeleton_run mesh = some ({ mesh with tmp_matrices := s.tmp }, s.writes) := by
    simp only [update_skeleton_run, hrun, hoff]
  exact ⟨s, hrun, hlen, hw, h1, by simp [update_skeleton, h1]⟩

/-- With pairwise distinct bone indices the recurrence holds, after `k` iterations, at every
position below `k`. -/
theorem pose_recurrence_upto {mesh : MdMesh α} (hs : mesh.Sized) (hr : mesh.BonesInRange)
    (hp : mesh.ParentBeforeChild) (hd : mesh.DistinctBones) (k : Nat)
    (hk : k ≤ mesh.node_count) :
    ∃ s, update_skeleton_pose mesh k = some s ∧ s.tmp.length = mesh.bone_count ∧
      ∀ i, i < k → PoseRecurrence mesh s.tmp i := by
  induction k with
  | zero => exact ⟨_, rfl, hs.2.2.2, fun i hi => absurd hi (Nat.not_lt_zero i)⟩
  | succ k ih =>
    obtain ⟨s, hrun, hlen, hinv⟩ := ih (by omega)
    obtain ⟨node, l, hn, hl, hb, hcase⟩ :=
      pose_step hs hr hp.parentsInRange (by omega) hrun hlen
    have hpk : node.parent_index < (k : Int) := hp k (by omega) node hn
    -- a store at the bone of node `k` leaves the entry of every other node alone
    have hkeep : ∀ (v : Mat4 α) (j : Nat) (nj : Node), j < mesh.node_count → j ≠ k →
        mesh.skeleton_nodes[j]? = some nj →
        (s.tmp.set node.bone_index v)[nj.bone_index]? = s.tmp[nj.bone_index]? := by
      intro v j nj hj hjk hnj
      have hne : node.bone_index ≠ nj.bone_index := fun h =>
        hjk (hd j hj k (by omega) nj hnj node hn h.symm)
      exact List.getElem?_set_ne hne
    have hold : ∀ (v : Mat4 α) (i : Nat), i < k →
        PoseRecurrence mesh (s.tmp.set node.bone_index v) i := by
      intro v i hi ni hni
      obtain ⟨li, hli, hroot, hchild⟩ := hinv i hi ni hni
      refine ⟨li, hli, ?_, ?_⟩
      · intro h
        rw [hkeep v i ni (by omega) (by omega) hni]
        exact hroot h
      · intro h
        obtain ⟨pn, wp, hpn, hwp, hval⟩ := hchild h
        have hpi : ni.parent_index < (i : Int) := hp i (by omega) ni hni
        refine ⟨pn, wp, hpn, ?_, ?_⟩
        · rw [hkeep v ni.parent_index.toNat pn (by omega) (by omega) hpn]
          exact hwp
        · rw [hkeep v i ni (by omega) (by omega) hni]
          exact hval
    have hself : ∀ v : Mat4 α, (s.tmp.set node.bone_index v)[node.bone_index]? = some v :=
      fun v => List.getElem?_set_self (by omega)
    rcases hcase with ⟨hroot, hnext⟩ | ⟨hpar, parent, wp, hpn, hwp, hnext⟩
    · refine ⟨_, hnext, by simp [hlen], ?_⟩
      intro i hi
      by_cases hik : i = k
      · subst hik
        intro ni hni
        have hnode : ni = node := Option.some.inj (hni.symm.trans hn)
        subst hnode
        exact ⟨l, hl, fun _ => hself l, fun h => absurd hroot (by omega)⟩
      · exact hold l i (by omega)
    · refine ⟨_, hnext, by simp [hlen], ?_⟩
      intro i hi
      by_cases hik : i = k
      · subst hik
        intro ni hni
        have hnode : ni = node := Option.some.inj (hni.symm.trans hn)
        subst hnode
        refine ⟨l, hl, fun h => absurd hpar (by omega), fun _ => ⟨parent, wp, hpn, ?_, hself _⟩⟩
        rw [hkeep (wp * l) ni.parent_index.toNat parent (by omega) (by omega) hpn]
        exact hwp
      · exact hold (wp * l) i (by omega)

end PoseLemmas

/-! ## Pose evaluation: the recurrence -/

/-- C1. Pose evaluation recurrence: on a mesh whose node sequence is parent-before-child with
in-range, pairwise distinct bone indices, `update_skeleton` returns the mesh with only
`tmp_matrices` changed, and at the end of the call every node with bone index `b` and local
matrix `animation_matrices[b]` satisfies: without a parent, `tmp_matrices[b]` is the local matrix;
with a parent whose bone index is `p`, `tmp_matrices[b]` is `tmp_matrices[p]` times the local
matrix, parent on the left. -/
theorem update_skeleton_recurrence {α : Type} [Add α] [Mul α] (mesh : MdMesh α)
    (hs : mesh.Sized) (hr : mesh.BonesInRange) (hp : mesh.ParentBeforeChild)
    (hd : mesh.DistinctBones) :
    ∃ out, update_skeleton mesh = some out ∧
      out = { mesh with tmp_matrices := out.tmp_matrices } ∧
      ∀ i node, i < mesh.node_count → mesh.skeleton_nodes[i]? = some node →
        ∃ l, out.animation_matrices[node.bone_index]? = some l ∧
          (node.parent_index < 0 → out.tmp_matrices[node.bone_index]? = some l) ∧
          (0 ≤ node.parent_index → ∃ parent wp,
            mesh.skeleton_nodes[node.parent_index.toNat]? = some parent ∧
            out.tmp_matrices[parent.bone_index]? = some wp ∧
            out.tmp_matrices[node.bone_index]? = some (wp * l)) := by
  obtain ⟨s, hrun, _, _, _, hout⟩ := update_skeleton_run_eq hs hr hp.parentsInRange
  obtain ⟨s2, hrun2, _, hinv⟩ := pose_recurrence_upto hs hr hp hd mesh.node_count (le_refl _)
  have hs2 : s2 = s := Option.some.inj (hrun2.symm.trans hrun)
  subst hs2
  exact ⟨_, hout, rfl, fun i node hi hn => hinv i hi node hn⟩


/-- The witness of C1: the 3-node chain with integer matrices `translate(0,1,0)`, identity,
identity meets the hypotheses, so the recurrence holds of it. -/
theorem update_skeleton_recurrence_witness :
    ∃ out, update_skeleton (chain_mesh (translate_up : Mat4 Int) Mat4.identity Mat4.identity)
        = some out ∧
      out = { chain_mesh (translate_up : Mat4 Int) Mat4.identity Mat4.identity with
              tmp_matrices := out.tmp_matrices } ∧
      ∀ i node, i < 3 → chain_nodes[i]? = some node →
        ∃ l, out.animation_matrices[node.bone_index]? = some l ∧
          (node.parent_index < 0 → out.tmp_matrices[node.bone_index]? = some l) ∧
          (0 ≤ node.parent_index → ∃ parent wp,
            chain_nodes[node.parent_index.toNat]? = some parent ∧
            out.tmp_matrices[parent.bone_index]? = some wp ∧
            out.tmp_matrices[node.bone_index]? = some (wp * l)) :=
  update_skeleton_recurrence (chain_mesh (translate_up : Mat4 Int) Mat4.identity Mat4.identity)
    (by decide) (by decide) (by decide) (by decide)

/-! ## Pose evaluation: composition order -/

section Composition

variable {α : Type} [Add α] [Mul α]

theorem mat4_mul_def (a b : Mat4 α) : a * b = Mat4.mul a b := rfl

theorem ordered_product_snoc (ms : List (Mat4 α)) (m : Mat4 α) :
    ordered_product (ms ++ [m]) = some (mul_onto (ordered_product ms) m) := by
  simp [ordered_product, List.foldl_append]

/-- With enough fuel the path of a node exists, and the world pose that satisfies the
recurrence is the ordered product along it. -/
theorem path_product_of_recurrence {mesh : MdMesh α} (hp : mesh.ParentBeforeChild) {tmp : List (Mat4 α)}
    (hrec : ∀ i, i < mesh.node_count → PoseRecurrence mesh tmp i) :
    ∀ fuel i node, i < fuel → i < mesh.node_count → mesh.skeleton_nodes[i]? = some node →
      ∃ path, root_path_locals mesh fuel i = some path ∧
        tmp[node.bone_index]? = ordered_product path := by
  intro fuel
  induction fuel with
  | zero => intro i node hi; exact absurd hi (Nat.not_lt_zero i)
  | succ fuel ih =>
    intro i node hif hi hn
    obtain ⟨l, hl, hroot, hchild⟩ := hrec i hi node hn
    by_cases hpar : node.parent_index < 0
    · have hpar2 : ¬ node.parent_index ≥ 0 := by omega
      refine ⟨[l], by simp [root_path_locals, hn, hl, hpar2], ?_⟩
      rw [hroot hpar]
      rfl
    · have hpar0 : node.parent_index ≥ 0 := by omega
      obtain ⟨parent, wp, hpn, hwp, hval⟩ := hchild hpar0
      have hlt : node.parent_index < (i : Int) := hp i hi node hn
      obtain ⟨above, habove, hprod⟩ :=
        ih node.parent_index.toNat parent (by omega) (by omega) hpn
      refine ⟨above ++ [l], by simp [root_path_locals, hn, hl, hpar0, habove], ?_⟩
      rw [ordered_product_snoc, ← hprod, hwp, hval]
      rfl

end Composition

section Units

variable {α : Type} [Zero α] [One α] [Add α] [Mul α] [ExactUnits α]

/-- The product `glm::mat4(1) * glm::mat4(1)` is `glm::mat4(1)`, entry for entry. -/
theorem identity_mul_identity : (Mat4.identity : Mat4 α) * Mat4.identity = Mat4.identity := by
  simp [mat4_mul_def, Mat4.mul, Mat4.mulCol, Vec4.scale, Vec4.add, Mat4.identity,
    ExactUnits.one_mul_one, ExactUnits.zero_mul_zero, ExactUnits.zero_mul_one,
    ExactUnits.one_mul_zero, ExactUnits.one_add_zero, ExactUnits.zero_add_zero,
    ExactUnits.zero_add_one]

/-- The matrix `translate(0,1,0)` has the columns of the identity except for the last,
`(0, 1, 0, 1)`. -/
theorem translate_up_eq :
    (translate_up : Mat4 α) = ⟨⟨1, 0, 0, 0⟩, ⟨0, 1, 0, 0⟩, ⟨0, 0, 1, 0⟩, ⟨0, 1, 0, 1⟩⟩ := by
  simp [translate_up, up_vector, Mat4.translate, Vec4.scale, Vec4.add, Mat4.identity,
    ExactUnits.one_mul_one, ExactUnits.zero_mul_zero, ExactUnits.zero_mul_one,
    ExactUnits.one_mul_zero, ExactUnits.one_add_zero, ExactUnits.zero_add_zero,
    ExactUnits.zero_add_one]

/-- The product `translate(0,1,0) * glm::mat4(1)` is `translate(0,1,0)`, entry for entry. -/
theorem translate_up_mul_identity : (translate_up : Mat4 α) * Mat4.identity = translate_up := by
  rw [translate_up_eq]
  simp [mat4_mul_def, Mat4.mul, Mat4.mulCol, Vec4.scale, Vec4.add, Mat4.identity,
    ExactUnits.one_mul_one, ExactUnits.zero_mul_zero, ExactUnits.zero_mul_one,
    ExactUnits.one_mul_zero, ExactUnits.one_add_zero, ExactUnits.zero_add_zero,
    ExactUnits.zero_add_one]

end Units

/-- C2. Composition order: on a parent-before-child hierarchy with in-range, pairwise distinct
bone indices, the world pose `update_skeleton` leaves for a node is the ordered product of the
local matrices on the path from the root to that node, root first and associated to the left.
In particular, for the chain root (bone 0) → mid (bone 1) → leaf (bone 2) with root local
`translate(0,1,0)` and identity locals for mid and leaf, the path of the leaf is
`[translate(0,1,0), identity, identity]` and its world pose is `translate(0,1,0)` exactly. -/
theorem update_skeleton_composition {α : Type} [Zero α] [One α] [Add α] [Mul α] [ExactUnits α]
    (mesh : MdMesh α) (hs : mesh.Sized) (hr : mesh.BonesInRange) (hp : mesh.ParentBeforeChild)
    (hd : mesh.DistinctBones) :
    (∃ out, update_skeleton mesh = some out ∧
      ∀ i node, i < mesh.node_count → mesh.skeleton_nodes[i]? = some node →
        ∃ path, root_path_locals mesh (i + 1) i = some path ∧
          out.tmp_matrices[node.bone_index]? = ordered_product path) ∧
    (∃ out, update_skeleton (chain_mesh (translate_up : Mat4 α) Mat4.identity Mat4.identity)
        = some out ∧
      root_path_locals (chain_mesh (translate_up : Mat4 α) Mat4.identity Mat4.identity) 3 2
        = some [translate_up, Mat4.identity, Mat4.identity] ∧
      out.tmp_matrices[2]? = some translate_up) := by
  constructor
  · obtain ⟨s, hrun, _, _, _, hout⟩ := update_skeleton_run_eq hs hr hp.parentsInRange
    obtain ⟨s2, hrun2, _, hinv⟩ := pose_recurrence_upto hs hr hp hd mesh.node_count (le_refl _)
    have hs2 : s2 = s := Option.some.inj (hrun2.symm.trans hrun)
    subst hs2
    refine ⟨_, hout, fun i node hi hn => ?_⟩
    exact path_product_of_recurrence hp hinv (i + 1) i node (by omega) hi hn
  · refine ⟨{ chain_mesh (translate_up : Mat4 α) Mat4.identity Mat4.identity with
              tmp_matrices := [translate_up, translate_up, translate_up] }, ?_, ?_, ?_⟩
    · simp [update_skeleton, update_skeleton_run, update_skeleton_pose,
        update_skeleton_iteration, update_skeleton_offsets, chain_mesh, chain_nodes,
        translate_up_mul_identity]
    · simp [root_path_locals, chain_mesh, chain_nodes]
    · simp

/-- The witness of C2: the chain with integer matrices meets the hypotheses; every node's world
pose is the ordered product along its path and the leaf ends at `translate(0,1,0)`. -/
theorem update_skeleton_composition_witness :
    (∃ out, update_skeleton (chain_mesh (translate_up : Mat4 Int) Mat4.identity Mat4.identity)
        = some out ∧
      ∀ i node, i < 3 → chain_nodes[i]? = some node →
        ∃ path, root_path_locals
            (chain_mesh (translate_up : Mat4 Int) Mat4.identity Mat4.identity) (i + 1) i
              = some path ∧
          out.tmp_matrices[node.bone_index]? = ordered_product path) ∧
    (∃ out, update_skeleton (chain_mesh (translate_up : Mat4 Int) Mat4.identity Mat4.identity)
        = some out ∧
      root_path_locals (chain_mesh (translate_up : Mat4 Int) Mat4.identity Mat4.identity) 3 2
        = some [translate_up, Mat4.identity, Mat4.identity] ∧
      out.tmp_matrices[2]? = some translate_up) :=
  update_skeleton_composition (chain_mesh (translate_up : Mat4 Int) Mat4.identity Mat4.identity)
    (by decide) (by decide) (by decide) (by decide)

/-! ## Pose evaluation: identity propagation -/

/-- With identity local matrices, after `k` iterations every node below `k` has the identity
as its world pose. -/
theorem pose_identity_upto {α : Type} [Zero α] [One α] [Add α] [Mul α] [ExactUnits α]
    {mesh : MdMesh α} (hs : mesh.Sized) (hr : mesh.BonesInRange) (hp : mesh.ParentBeforeChild)
    (hid : ∀ m ∈ mesh.animation_matrices, m = Mat4.identity) (k : Nat)
    (hk : k ≤ mesh.node_count) :
    ∃ s, update_skeleton_pose mesh k = some s ∧ s.tmp.length = mesh.bone_count ∧
      ∀ i node, i < k → mesh.skeleton_nodes[i]? = some node →
        s.tmp[node.bone_index]? = some Mat4.identity := by
  induction k with
  | zero => exact ⟨_, rfl, hs.2.2.2, fun i _ hi => absurd hi (Nat.not_lt_zero i)⟩
  | succ k ih =>
    obtain ⟨s, hrun, hlen, hinv⟩ := ih (by omega)
    obtain ⟨node, l, hn, hl, hb, hcase⟩ :=
      pose_step hs hr hp.parentsInRange (by omega) hrun hlen
    have hpk : node.parent_index < (k : Int) := hp k (by omega) node hn
    have hlid : l = Mat4.identity := hid l (List.getElem?_mem hl)
    -- storing the identity keeps the invariant
    have hstore : ∀ i ni, i < k + 1 → mesh.skeleton_nodes[i]? = some ni →
        (s.tmp.set node.bone_index Mat4.identity)[ni.bone_index]? = some Mat4.identity := by
      intro i ni hi hni
      rw [List.getElem?_set]
      by_cases hbb : node.bone_index = ni.bone_index
      · simp [hbb, ← hlen, show ni.bone_index < s.tmp.length by omega]
      · rw [if_neg hbb]
        have hik : i < k := by
          rcases Nat.lt_succ_iff_lt_or_eq.mp hi with h | h
          · exact h
          · subst h
            exact absurd (congrArg Node.bone_index (Option.some.inj (hn.symm.trans hni))) hbb
        exact hinv i ni hik hni
    rcases hcase with ⟨_, hnext⟩ | ⟨hpar, parent, wp, hpn, hwp, hnext⟩
    · rw [hlid] at hnext
      exact ⟨_, hnext, by simp [hlen], hstore⟩
    · have hwpid : wp = Mat4.identity := by
        have := hinv node.parent_index.toNat parent (by omega) hpn
        exact Option.some.inj (hwp.symm.trans this)
      rw [hlid, hwpid, identity_mul_identity] at hnext
      exact ⟨_, hnext, by simp [hlen], hstore⟩

/-- C10. Identity propagation: on a parent-before-child hierarchy with in-range bone indices,
if every local animation matrix is the identity then `update_skeleton` returns and the world
pose of every bone that appears in the node sequence is the identity matrix; in particular all
three world poses of the chain root (bone 0) → mid (bone 1) → leaf (bone 2) are the identity. -/
theorem update_skeleton_identity {α : Type} [Zero α] [One α] [Add α] [Mul α] [ExactUnits α]
    (mesh : MdMesh α) (hs : mesh.Sized) (hr : mesh.BonesInRange) (hp : mesh.ParentBeforeChild)
    (hid : ∀ m ∈ mesh.animation_matrices, m = Mat4.identity) :
    (∃ out, update_skeleton mesh = some out ∧
      ∀ i node, i < mesh.node_count → mesh.skeleton_nodes[i]? = some node →
        out.tmp_matrices[node.bone_index]? = some Mat4.identity) ∧
    (∃ out, update_skeleton (chain_mesh (Mat4.identity : Mat4 α) Mat4.identity Mat4.identity)
        = some out ∧
      out.tmp_matrices = [Mat4.identity, Mat4.identity, Mat4.identity]) := by
  constructor
  · obtain ⟨s, hrun, _, _, _, hout⟩ := update_skeleton_run_eq hs hr hp.parentsInRange
    obtain ⟨s2, hrun2, _, hinv⟩ := pose_identity_upto hs hr hp hid mesh.node_count (le_refl _)
    have hs2 : s2 = s := Option.some.inj (hrun2.symm.trans hrun)
    subst hs2
    exact ⟨_, hout, fun i node hi hn => hinv i node hi hn⟩
  · refine ⟨{ chain_mesh (Mat4.identity : Mat4 α) Mat4.identity Mat4.identity with
              tmp_matrices := [Mat4.identity, Mat4.identity, Mat4.identity] }, ?_, rfl⟩
    simp [update_skeleton, update_skeleton_run, update_skeleton_pose,
      update_skeleton_iteration, update_skeleton_offsets, chain_mesh, chain_nodes,
      identity_mul_identity]

/-- The witness of C10: the chain with integer identity local matrices meets the hypotheses. -/
theorem update_skeleton_identity_witness :
    (∃ out, update_skeleton (chain_mesh (Mat4.identity : Mat4 Int) Mat4.identity Mat4.identity)
        = some out ∧
      ∀ i node, i < 3 → chain_nodes[i]? = some node →
        out.tmp_matrices[node.bone_index]? = some Mat4.identity) ∧
    (∃ out, update_skeleton (chain_mesh (Mat4.identity : Mat4 Int) Mat4.identity Mat4.identity)
        = some out ∧
      out.tmp_matrices = [Mat4.identity, Mat4.identity, Mat4.identity]) :=
  update_skeleton_identity (chain_mesh (Mat4.identity : Mat4 Int) Mat4.identity Mat4.identity)
    (by decide) (by decide) (by decide) (by decide)

/-! ## Pose evaluation: independence of the scratch contents -/

/-- Two runs on meshes with the same inputs agree, after `k` iterations, on the entry of every
node below `k`, whatever the scratch arrays held before. -/
theorem pose_agree_upto {α : Type} [Add α] [Mul α] {m1 m2 : MdMesh α}
    (hsame : m1.SameInputs m2) (hs1 : m1.Sized) (hs2 : m2.Sized) (hr : m1.BonesInRange)
    (hp : m1.ParentBeforeChild) (k : Nat) (hk : k ≤ m1.node_count) :
    ∃ s1 s2, update_skeleton_pose m1 k = some s1 ∧ update_skeleton_pose m2 k = some s2 ∧
      s1.tmp.length = m1.bone_count ∧ s2.tmp.length = m1.bone_count ∧
      ∀ i node, i < k → m1.skeleton_nodes[i]? = some node →
        s1.tmp[node.bone_index]? = s2.tmp[node.bone_index]? := by
  obtain ⟨hnodes, hnc, hbones, hbc, hanim⟩ := hsame
  have hr2 : m2.BonesInRange := by
    intro i hi node hn
    rw [hnodes] at hn; rw [hnc] at hi; rw [hbc]
    exact hr i hi node hn
  have hp2 : m2.ParentBeforeChild := by
    intro i hi node hn
    rw [hnodes] at hn; rw [hnc] at hi
    exact hp i hi node hn
  induction k with
  | zero =>
    exact ⟨_, _, rfl, rfl, hs1.2.2.2, by rw [← hbc]; exact hs2.2.2.2,
      fun i _ hi => absurd hi (Nat.not_lt_zero i)⟩
  | succ k ih =>
    obtain ⟨s1, s2, hrun1, hrun2, hlen1, hlen2, hinv⟩ := ih (by omega)
    obtain ⟨node, l, hn, hl, hb, hcase1⟩ :=
      pose_step hs1 hr hp.parentsInRange (by omega) hrun1 hlen1
    obtain ⟨node2, l2, hn2, hl2, _, hcase2⟩ :=
      pose_step hs2 hr2 hp2.parentsInRange (by omega) hrun2 (by omega)
    rw [hnodes] at hn2
    have hnode : node2 = node := Option.some.inj (hn2.symm.trans hn)
    subst hnode
    rw [hanim] at hl2
    have hll : l2 = l := Option.some.inj (hl2.symm.trans hl)
    subst hll
    have hpk : node2.parent_index < (k : Int) := hp k (by omega) node2 hn
    -- storing the same value at the same index keeps the agreement
    have hstore : ∀ (v : Mat4 α) i ni, i < k + 1 → m1.skeleton_nodes[i]? = some ni →
        (s1.tmp.set node2.bone_index v)[ni.bone_index]?
          = (s2.tmp.set node2.bone_index v)[ni.bone_index]? := by
      intro v i ni hi hni
      rw [List.getElem?_set, List.getElem?_set]
      by_cases hbb : node2.bone_index = ni.bone_index
      · simp [hbb, hlen1, hlen2]
      · rw [if_neg hbb, if_neg hbb]
        have hik : i < k := by
          rcases Nat.lt_succ_iff_lt_or_eq.mp hi with h | h
          · exact h
          · subst h
            exact absurd (congrArg Node.bone_index (Option.some.inj (hn.symm.trans hni))) hbb
        exact hinv i ni hik hni
    rcases hcase1 with ⟨hroot, hnext1⟩ | ⟨hpar, parent, wp, hpn, hwp, hnext1⟩
    · rcases hcase2 with ⟨_, hnext2⟩ | ⟨hpar2, _⟩
      · exact ⟨_, _, hnext1, hnext2, by simp [hlen1], by simp [hlen2], hstore l2⟩
      · omega
    · rcases hcase2 with ⟨hroot2, _⟩ | ⟨_, parent2, wp2, hpn2, hwp2, hnext2⟩
      · omega
      · rw [hnodes] at hpn2
        have hpar_eq : parent2 = parent := Option.some.inj (hpn2.symm.trans hpn)
        subst hpar_eq
        have hagree := hinv node2.parent_index.toNat parent2 (by omega) hpn
        have hwp_eq : wp2 = wp := by
          rw [hwp, hwp2] at hagree
          exact (Option.some.inj hagree).symm
        subst hwp_eq
        exact ⟨_, _, hnext1, hnext2, by simp [hlen1], by simp [hlen2], hstore (wp2 * l2)⟩

/-- An entry of `tmp_matrices` whose index no node carries keeps its prior contents through
the first `k` iterations. -/
theorem pose_frame_upto {α : Type} [Add α] [Mul α] {mesh : MdMesh α} (hs : mesh.Sized)
    (hr : mesh.BonesInRange) (hq : mesh.ParentsInRange) (b : Nat)
    (hfree : ∀ i node, i < mesh.node_count → mesh.skeleton_nodes[i]? = some node →
      node.bone_index ≠ b) (k : Nat) (hk : k ≤ mesh.node_count) :
    ∃ s, update_skeleton_pose mesh k = some s ∧ s.tmp.length = mesh.bone_count ∧
      s.tmp[b]? = mesh.tmp_matrices[b]? := by
  induction k with
  | zero => exact ⟨_, rfl, hs.2.2.2, rfl⟩
  | succ k ih =>
    obtain ⟨s, hrun, hlen, hinv⟩ := ih (by omega)
    obtain ⟨node, l, hn, _, _, hcase⟩ := pose_step hs hr hq (by omega) hrun hlen
    have hne : node.bone_index ≠ b := hfree k node (by omega) hn
    rcases hcase with ⟨_, hnext⟩ | ⟨_, parent, wp, _, _, hnext⟩
    · exact ⟨_, hnext, by simp [hlen], by rw [← hinv]; exact List.getElem?_set_ne hne⟩
    · exact ⟨_, hnext, by simp [hlen], by rw [← hinv]; exact List.getElem?_set_ne hne⟩

/-- C9 as stated fails. (a) A bone that no node refers to: the two meshes agree on nodes, bones,
counts and local matrices, and after `update_skeleton` their scratch entries at bone index 0,
which is below `bone_count = 1`, still differ as they did before.  (b) A node that is its own
parent: the entry stored is the prior entry times the local matrix, so it differs too. -/
theorem update_skeleton_purity_counterexample :
    ((unreferenced_bone_mesh Mat4.identity).SameInputs (unreferenced_bone_mesh translate_up) ∧
      (update_skeleton (unreferenced_bone_mesh Mat4.identity)).map MdMesh.tmp_matrices
        = some [Mat4.identity] ∧
      (update_skeleton (unreferenced_bone_mesh translate_up)).map MdMesh.tmp_matrices
        = some [translate_up] ∧
      (Mat4.identity : Mat4 Int) ≠ translate_up) ∧
    ((self_parent_mesh Mat4.identity).SameInputs (self_parent_mesh translate_up) ∧
      (update_skeleton (self_parent_mesh Mat4.identity)).map MdMesh.tmp_matrices
        = some [Mat4.identity] ∧
      (update_skeleton (self_parent_mesh translate_up)).map MdMesh.tmp_matrices
        = some [translate_up]) := by
  refine ⟨⟨by decide, by decide, by decide, by decide⟩, by decide, by decide, by decide⟩

/-- C9, amended. Two meshes that agree on nodes, bones, counts and local animation matrices,
with a parent-before-child node sequence, in-range bone indices and scratch arrays of
`bone_count` entries each, but with arbitrary prior scratch contents: `update_skeleton` returns
on both, the resulting `tmp_matrices` agree at every bone index that some node carries, and an
entry whose index no node carries keeps the prior contents of its own mesh. -/
theorem update_skeleton_scratch_independent {α : Type} [Add α] [Mul α] (m1 m2 : MdMesh α)
    (hsame : m1.SameInputs m2) (hs1 : m1.Sized) (hs2 : m2.Sized) (hr : m1.BonesInRange)
    (hp : m1.ParentBeforeChild) :
    ∃ o1 o2, update_skeleton m1 = some o1 ∧ update_skeleton m2 = some o2 ∧
      (∀ i node, i < m1.node_count → m1.skeleton_nodes[i]? = some node →
        o1.tmp_matrices[node.bone_index]? = o2.tmp_matrices[node.bone_index]?) ∧
      (∀ b, (∀ i node, i < m1.node_count → m1.skeleton_nodes[i]? = some node →
          node.bone_index ≠ b) →
        o1.tmp_matrices[b]? = m1.tmp_matrices[b]? ∧
        o2.tmp_matrices[b]? = m2.tmp_matrices[b]?) := by
  have hsame' := hsame
  obtain ⟨hnodes, hnc, hbones, hbc, hanim⟩ := hsame'
  have hr2 : m2.BonesInRange := by
    intro i hi node hn
    rw [hnodes] at hn; rw [hnc] at hi; rw [hbc]
    exact hr i hi node hn
  have hq2 : m2.ParentsInRange := by
    intro i hi node hn
    rw [hnodes] at hn; rw [hnc] at hi ⊢
    exact hp.parentsInRange i hi node hn
  obtain ⟨s1, hrun1, _, _, _, hout1⟩ := update_skeleton_run_eq hs1 hr hp.parentsInRange
  obtain ⟨s2, hrun2, _, _, _, hout2⟩ := update_skeleton_run_eq hs2 hr2 hq2
  refine ⟨_, _, hout1, hout2, ?_, ?_⟩
  · obtain ⟨t1, t2, h1, h2, _, _, hagree⟩ :=
      pose_agree_upto hsame hs1 hs2 hr hp m1.node_count (le_refl _)
    rw [hnc] at hrun2
    have e1 : t1 = s1 := Option.some.inj (h1.symm.trans hrun1)
    have e2 : t2 = s2 := Option.some.inj (h2.symm.trans hrun2)
    subst e1; subst e2
    exact fun i node hi hn => hagree i node hi hn
  · intro b hfree
    have hfree2 : ∀ i node, i < m2.node_count → m2.skeleton_nodes[i]? = some node →
        node.bone_index ≠ b := by
      intro i node hi hn
      rw [hnodes] at hn; rw [hnc] at hi
      exact hfree i node hi hn
    obtain ⟨t1, h1, _, hk1⟩ :=
      pose_frame_upto hs1 hr hp.parentsInRange b hfree m1.node_count (le_refl _)
    obtain ⟨t2, h2, _, hk2⟩ := pose_frame_upto hs2 hr2 hq2 b hfree2 m2.node_count (le_refl _)
    have e1 : t1 = s1 := Option.some.inj (h1.symm.trans hrun1)
    have e2 : t2 = s2 := Option.some.inj (h2.symm.trans hrun2)
    subst e1; subst e2
    exact ⟨hk1, hk2⟩

/-- The witness of C9 as amended: the integer chain, once with the scratch array as loaded and
once with `translate(0,1,0)` in every scratch entry. -/
theorem update_skeleton_scratch_independent_witness :
    ∃ o1 o2,
      update_skeleton (chain_mesh (translate_up : Mat4 Int) Mat4.identity Mat4.identity)
        = some o1 ∧
      update_skeleton
        { chain_mesh (translate_up : Mat4 Int) Mat4.identity Mat4.identity with
          tmp_matrices := [translate_up, translate_up, translate_up] } = some o2 ∧
      (∀ i node, i < 3 → chain_nodes[i]? = some node →
        o1.tmp_matrices[node.bone_index]? = o2.tmp_matrices[node.bone_index]?) ∧
      (∀ b, (∀ i node, i < 3 → chain_nodes[i]? = some node → node.bone_index ≠ b) →
        o1.tmp_matrices[b]? = (List.replicate 3 (Mat4.identity : Mat4 Int))[b]? ∧
        o2.tmp_matrices[b]? = [(translate_up : Mat4 Int), translate_up, translate_up][b]?) :=
  update_skeleton_scratch_independent
    (chain_mesh (translate_up : Mat4 Int) Mat4.identity Mat4.identity)
    { chain_mesh (translate_up : Mat4 Int) Mat4.identity Mat4.identity with
      tmp_matrices := [translate_up, translate_up, translate_up] }
    (by decide) (by decide) (by decide) (by decide) (by decide)

/-! ## Pose evaluation: the stores to `tmp_matrices` -/

/-- Under distinct bone indices the list of bone indices of the nodes has no duplicate. -/
theorem bone_indices_nodup {α : Type} {mesh : MdMesh α} (hs : mesh.Sized)
    (hd : mesh.DistinctBones) :
    ((mesh.skeleton_nodes.take mesh.node_count).map Node.bone_index).Nodup := by
  rw [List.nodup_iff_getElem?_ne_getElem?]
  intro i j hij hj
  have hjn : j < mesh.node_count := by
    simp only [List.length_map, List.length_take] at hj
    omega
  have hsn := hs.1
  have hi' : mesh.skeleton_nodes[i]? = some mesh.skeleton_nodes[i] :=
    List.getElem?_eq_getElem (by omega)
  have hj' : mesh.skeleton_nodes[j]? = some mesh.skeleton_nodes[j] :=
    List.getElem?_eq_getElem (by omega)
  simp only [List.getElem?_map, List.getElem?_take, hjn, show i < mesh.node_count by omega,
    if_true, hi', hj', Option.map_some', ne_eq, Option.some.injEq]
  intro hb
  have := hd i (by omega) j hjn _ hi' _ hj' hb
  omega

/-- C8 as stated fails: in `twin_mesh` the bone indices are in range and both nodes carry bone
index 0; the call stores to `tmp_matrices[0]` twice. -/
theorem update_skeleton_write_once_counterexample :
    twin_mesh.Sized ∧ twin_mesh.BonesInRange ∧ twin_mesh.ParentBeforeChild ∧
    (update_skeleton_run twin_mesh).map Prod.snd = some [0, 0] ∧
    List.count 0 [0, 0] = 2 := by
  refine ⟨by decide, by decide, by decide, by decide, by decide⟩

/-- C8, amended. On a mesh with in-range bone and parent indices `update_skeleton` returns, and
its stores to `tmp_matrices` are, in order, the bone indices of the nodes of the sequence: the
entry of a bone index is stored to as many times as there are nodes that carry it, hence at
least once for every bone index that appears in the sequence, and exactly once when the bone
indices are pairwise distinct. -/
theorem update_skeleton_writes {α : Type} [Add α] [Mul α] (mesh : MdMesh α)
    (hs : mesh.Sized) (hr : mesh.BonesInRange) (hq : mesh.ParentsInRange) :
    ∃ out writes, update_skeleton_run mesh = some (out, writes) ∧
      writes = (mesh.skeleton_nodes.take mesh.node_count).map Node.bone_index ∧
      (∀ i node, i < mesh.node_count → mesh.skeleton_nodes[i]? = some node →
        1 ≤ writes.count node.bone_index) ∧
      (mesh.DistinctBones →
        ∀ i node, i < mesh.node_count → mesh.skeleton_nodes[i]? = some node →
          writes.count node.bone_index = 1) := by
  obtain ⟨s, _, _, hw, hrun, _⟩ := update_skeleton_run_eq hs hr hq
  have hmem : ∀ i node, i < mesh.node_count → mesh.skeleton_nodes[i]? = some node →
      node.bone_index ∈ s.writes := by
    intro i node hi hn
    rw [hw, List.mem_map]
    refine ⟨node, ?_, rfl⟩
    rw [List.mem_iff_getElem?]
    exact ⟨i, by simp [List.getElem?_take, hi, hn]⟩
  refine ⟨_, _, hrun, hw, ?_, ?_⟩
  · intro i node hi hn
    exact List.count_pos_iff.mpr (hmem i node hi hn)
  · intro hd i node hi hn
    have hnd : s.writes.Nodup := by rw [hw]; exact bone_indices_nodup hs hd
    exact List.count_eq_one_of_mem hnd (hmem i node hi hn)

/-- The witness of C8 as amended: `twin_mesh`, whose two nodes share bone index 0, meets the
hypotheses; its log of stores is `[0, 0]`. -/
theorem update_skeleton_writes_witness :
    ∃ out writes, update_skeleton_run twin_mesh = some (out, writes) ∧
      writes = (twin_mesh.skeleton_nodes.take twin_mesh.node_count).map Node.bone_index ∧
      (∀ i node, i < twin_mesh.node_count → twin_mesh.skeleton_nodes[i]? = some node →
        1 ≤ writes.count node.bone_index) ∧
      (twin_mesh.DistinctBones →
        ∀ i node, i < twin_mesh.node_count → twin_mesh.skeleton_nodes[i]? = some node →
          writes.count node.bone_index = 1) :=
  update_skeleton_writes twin_mesh (by decide) (by decide) (by decide)

/-! ## The matrices handed to the storage buffer -/

/-- C7 as stated fails: in `offset_bone_mesh` the offset matrix `translate(0,1,0)` of bone 0 is
invertible with inverse `translate(0,-1,0)`, the world pose of bone 0 is the identity, and the
matrix copied to the storage buffer is the identity, not the identity times
`translate(0,-1,0)`. -/
theorem skin_matrix_counterexample :
    (translate_up : Mat4 Int) * translate_down = Mat4.identity ∧
    translate_down * (translate_up : Mat4 Int) = Mat4.identity ∧
    offset_bone_mesh.bones.map Bone.offset_matrix = [translate_up] ∧
    (update_skeleton offset_bone_mesh).map MdMesh.tmp_matrices = some [Mat4.identity] ∧
    storage_buffer_skeleton_matrices offset_bone_mesh = some [Mat4.identity] ∧
    (Mat4.identity : Mat4 Int) ≠ Mat4.identity * translate_down := by
  refine ⟨by decide, by decide, by decide, by decide, by decide, by decide⟩

/-- C7, amended. On a mesh in which `node_count` nodes are present, whose arrays `bones`,
`animation_matrices` and `tmp_matrices` hold `bone_count` entries and whose bone indices are
below `bone_count` and parent indices below `node_count`, the array handed to the storage
buffer after `update_skeleton` is `tmp_matrices` as `update_skeleton` leaves it, `bone_count`
matrices long: the matrix for bone `b` is the world pose of `b` itself and no inverse of an
offset matrix is multiplied on.  When the hierarchy is parent-before-child with pairwise
distinct bone indices, the matrix handed over for a node's bone is its local matrix
`animation_matrices[b]` if the node has no parent, and otherwise the matrix handed over for
the parent's bone times its local matrix.  The animation matrices are those in place when
`update_skeleton` is called. -/
theorem skin_matrices_are_world_pose {α : Type} [Add α] [Mul α] (mesh : MdMesh α)
    (hs : mesh.Sized) (hr : mesh.BonesInRange) (hq : mesh.ParentsInRange) :
    ∃ buffer, storage_buffer_skeleton_matrices mesh = some buffer ∧
      update_skeleton mesh = some { mesh with tmp_matrices := buffer } ∧
      buffer.length = mesh.bone_count ∧
      (mesh.ParentBeforeChild → mesh.DistinctBones →
        ∀ i node, i < mesh.node_count → mesh.skeleton_nodes[i]? = some node →
          ∃ l, mesh.animation_matrices[node.bone_index]? = some l ∧
            (node.parent_index < 0 → buffer[node.bone_index]? = some l) ∧
            (0 ≤ node.parent_index → ∃ parent wp,
              mesh.skeleton_nodes[node.parent_index.toNat]? = some parent ∧
              buffer[parent.bone_index]? = some wp ∧
              buffer[node.bone_index]? = some (wp * l))) := by
  obtain ⟨s, hrun, hlen, _, _, hout⟩ := update_skeleton_run_eq hs hr hq
  have hbuf : storage_buffer_skeleton_matrices mesh = some s.tmp := by
    simp only [storage_buffer_skeleton_matrices, hout]
    rw [if_pos (by simp [hlen])]
    simp [← hlen]
  refine ⟨s.tmp, hbuf, hout, hlen, fun hp hd i node hi hn => ?_⟩
  obtain ⟨s2, hrun2, _, hinv⟩ := pose_recurrence_upto hs hr hp hd mesh.node_count (le_refl _)
  have hs2 : s2 = s := Option.some.inj (hrun2.symm.trans hrun)
  subst hs2
  exact hinv i hi node hn

/-- The witness of C7 as amended: `offset_chain_mesh`, whose offset matrices are
`translate(0,1,0)`, meets the hypotheses and is parent-before-child with distinct bone
indices; every matrix handed over is `translate(0,1,0)`, the world pose. -/
theorem skin_matrices_are_world_pose_witness :
    (offset_chain_mesh.ParentBeforeChild ∧ offset_chain_mesh.DistinctBones ∧
      storage_buffer_skeleton_matrices offset_chain_mesh
        = some [translate_up, translate_up, translate_up]) ∧
    ∃ buffer, storage_buffer_skeleton_matrices offset_chain_mesh = some buffer ∧
      update_skeleton offset_chain_mesh
        = some { offset_chain_mesh with tmp_matrices := buffer } ∧
      buffer.length = offset_chain_mesh.bone_count ∧
      (offset_chain_mesh.ParentBeforeChild → offset_chain_mesh.DistinctBones →
        ∀ i node, i < offset_chain_mesh.node_count →
          offset_chain_mesh.skeleton_nodes[i]? = some node →
          ∃ l, offset_chain_mesh.animation_matrices[node.bone_index]? = some l ∧
            (node.parent_index < 0 → buffer[node.bone_index]? = some l) ∧
            (0 ≤ node.parent_index → ∃ parent wp,
              offset_chain_mesh.skeleton_nodes[node.parent_index.toNat]? = some parent ∧
              buffer[parent.bone_index]? = some wp ∧
              buffer[node.bone_index]? = some (wp * l))) :=
  ⟨⟨by decide, by decide, by decide⟩,
    skin_matrices_are_world_pose offset_chain_mesh (by decide) (by decide) (by decide)⟩

/-! ## Round trip of the object representations -/

theorem field_zero_append (a rest : List Nat) (len : Nat) (h : a.length = len) :
    field (a ++ rest) 0 len = a := by
  subst h
  simp [field]

theorem field_zero_self (a : List Nat) (len : Nat) (h : a.length = len) :
    field a 0 len = a := by
  subst h
  simp [field]

theorem field_skip_append (a rest : List Nat) (off len : Nat) (h : a.length ≤ off) :
    field (a ++ rest) off len = field rest (off - a.length) len := by
  unfold field
  congr 1
  obtain ⟨d, rfl⟩ := Nat.exists_eq_add_of_le h
  rw [List.drop_append, Nat.add_sub_cancel_left]

theorem encode_u16_length (n : Nat) : (encode_u16 n).length = 2 := rfl

theorem encode_u32_length (n : Nat) : (encode_u32 n).length = 4 := rfl

theorem encode_i32_length (p : Int) : (encode_i32 p).length = 4 := rfl

theorem encode_f32_length {α : Type} [FloatBits α] (x : α) : (encode_f32 x).length = 4 := rfl

theorem encode_vec3_length {α : Type} [FloatBits α] (v : Vec3 α) :
    (encode_vec3 v).length = 12 := rfl

theorem encode_vec4_length {α : Type} [FloatBits α] (v : Vec4 α) :
    (encode_vec4 v).length = 16 := rfl

theorem encode_mat4_length {α : Type} [FloatBits α] (m : Mat4 α) :
    (encode_mat4 m).length = 64 := rfl

theorem encode_header_length (h : MdMeshHeader) : (encode_header h).length = 20 := rfl

theorem encode_Vertex_length {α : Type} [FloatBits α] (v : Vertex α) :
    (encode_Vertex v).length = 68 := rfl

theorem le_u16_encode (n : Nat) (h : n < 65536) : le_u16 (encode_u16 n) = n := by
  simp only [le_u16, encode_u16]
  omega

theorem le_u32_encode (n : Nat) (h : n < 4294967296) : le_u32 (encode_u32 n) = n := by
  simp only [le_u32, encode_u32]
  omega

theorem le_i32_encode (p : Int) (h1 : -2147483648 ≤ p) (h2 : p < 2147483648) :
    le_i32 (encode_i32 p) = p := by
  have hlt : (p % 4294967296).toNat < 4294967296 := by omega
  simp only [le_i32, encode_i32, le_u32_encode _ hlt]
  split <;> omega

theorem le_f32_encode {α : Type} [FloatBits α] (x : α) (h : FloatBits.Exact x) :
    le_f32 (encode_f32 x) = x := by
  simp only [le_f32, encode_f32, le_u32_encode _ h.1]
  exact h.2

theorem decode_vec3_encode {α : Type} [FloatBits α] (v : Vec3 α) (h : v.Exact) :
    decode_vec3 (encode_vec3 v) = v := by
  obtain ⟨hx, hy, hz⟩ := h
  simp [decode_vec3, encode_vec3, field_zero_append, field_zero_self, field_skip_append,
    encode_f32_length, le_f32_encode, hx, hy, hz]

theorem decode_vec4_encode {α : Type} [FloatBits α] (v : Vec4 α) (h : v.Exact) :
    decode_vec4 (encode_vec4 v) = v := by
  obtain ⟨hx, hy, hz, hw⟩ := h
  simp [decode_vec4, encode_vec4, field_zero_append, field_zero_self, field_skip_append,
    encode_f32_length, le_f32_encode, hx, hy, hz, hw]

theorem decode_mat4_encode {α : Type} [FloatBits α] (m : Mat4 α) (h : m.Exact) :
    decode_mat4 (encode_mat4 m) = m := by
  obtain ⟨h0, h1, h2, h3⟩ := h
  simp [decode_mat4, encode_mat4, field_zero_append, field_zero_self, field_skip_append,
    encode_vec4_length, decode_vec4_encode, h0, h1, h2, h3]

theorem decode_Vertex_encode {α : Type} [FloatBits α] (v : Vertex α) (h : v.WellTyped) :
    decode_Vertex (encode_Vertex v) = v := by
  obtain ⟨hp, hn, hc, ⟨hi0, hi1, hi2, hi3⟩, ⟨hw0, hw1, hw2, hw3⟩⟩ := h
  simp [decode_Vertex, encode_Vertex, field_zero_append, field_zero_self, field_skip_append,
    encode_vec3_length, encode_u32_length, encode_f32_length, decode_vec3_encode,
    le_u32_encode, le_f32_encode, hp, hn, hc, hi0, hi1, hi2, hi3, hw0, hw1, hw2, hw3]

theorem encode_Bone_length {α : Type} [FloatBits α] (b : Bone α) (h : b.WellTyped) :
    (encode_Bone b).length = 132 := by
  simp [encode_Bone, encode_mat4_length, encode_u32_length, h.1, MAX_BONE_NAME_LENGTH]

theorem encode_Node_length (n : Node) (h : n.WellTyped) : (encode_Node n).length = 72 := by
  simp [encode_Node, encode_i32_length, encode_u32_length, h.2.2, MAX_BONE_NAME_LENGTH]

theorem decode_Bone_encode {α : Type} [FloatBits α] (b : Bone α) (h : b.WellTyped) :
    decode_Bone (encode_Bone b) = b := by
  obtain ⟨hname, hm, hw⟩ := h
  have hname64 : b.name.length = 64 := hname
  simp [decode_Bone, encode_Bone, field_zero_append, field_zero_self, field_skip_append,
    encode_mat4_length, encode_u32_length, decode_mat4_encode, le_u32_encode, hm, hw,
    hname64, MAX_BONE_NAME_LENGTH]

theorem decode_Node_encode (n : Node) (h : n.WellTyped) : decode_Node (encode_Node n) = n := by
  obtain ⟨hb, ⟨hp1, hp2⟩, hname⟩ := h
  have hname64 : n.name.length = 64 := hname
  simp [decode_Node, encode_Node, field_zero_append, field_zero_self, field_skip_append,
    encode_i32_length, encode_u32_length, le_i32_encode, le_u32_encode, hb, hp1, hp2,
    hname64, MAX_BONE_NAME_LENGTH]

/-- Reading back `xs.length` records from the concatenation of their encodings, whatever
follows it, gives `xs`. -/
theorem decode_array_flatMap {β : Type} (decode : List Nat → β) (encode : β → List Nat)
    (size : Nat) (xs : List β) (rest : List Nat)
    (hsize : ∀ x ∈ xs, (encode x).length = size)
    (hdec : ∀ x ∈ xs, decode (encode x) = x) :
    decode_array decode size xs.length (xs.flatMap encode ++ rest) = xs := by
  induction xs with
  | nil => rfl
  | cons x xs ih =>
    have hx := hsize x (List.mem_cons_self x xs)
    have ih' := ih (fun y hy => hsize y (List.mem_cons_of_mem x hy))
      (fun y hy => hdec y (List.mem_cons_of_mem x hy))
    simp only [List.flatMap_cons, List.length_cons, decode_array, List.append_assoc]
    rw [List.take_left' hx, List.drop_left' hx, hdec x (List.mem_cons_self x xs), ih']

theorem flatMap_length_of_size {β : Type} (encode : β → List Nat) (size : Nat) (xs : List β)
    (hsize : ∀ x ∈ xs, (encode x).length = size) :
    (xs.flatMap encode).length = xs.length * size := by
  induction xs with
  | nil => simp
  | cons x xs ih =>
    have hx := hsize x (List.mem_cons_self x xs)
    have ih' := ih (fun y hy => hsize y (List.mem_cons_of_mem x hy))
    simp only [List.flatMap_cons, List.length_append, List.length_cons, hx, ih']
    rw [Nat.succ_mul, Nat.add_comm]

/-! ## `load_md_mesh`: round trip -/

/-- Loading the buffer built from arrays of their C types gives back the arrays, the lengths
as counts, identity matrices in the three matrix arrays and zero buffer offsets. -/
theorem load_build_buffer {α : Type} [Zero α] [One α] [FloatBits α]
    (vertices : List (Vertex α)) (indices : List Nat) (bones : List (Bone α))
    (nodes : List Node) (h : WellTypedArrays vertices indices bones nodes) :
    load_md_mesh (build_buffer vertices indices bones nodes) =
      LoadResult.loaded
        { vertices := vertices, vertex_count := vertices.length, vertex_buffer_offset := 0,
          indices := indices, index_count := indices.length, index_buffer_offset := 0,
          bones := bones, bone_count := bones.length,
          animation_matrices := List.replicate bones.length Mat4.identity,
          tmp_matrices := List.replicate bones.length Mat4.identity,
          final_pose := List.replicate bones.length Mat4.identity,
          skeleton_nodes := nodes, node_count := nodes.length } := by
  obtain ⟨⟨hvl, hil, hbl, hnl⟩, hv, hi, hb, hn⟩ := h
  have hVsize : ∀ v ∈ vertices, (encode_Vertex v).length = 68 :=
    fun v _ => encode_Vertex_length v
  have hIsize : ∀ i ∈ indices, (encode_u16 i).length = 2 := fun i _ => encode_u16_length i
  have hBsize : ∀ b ∈ bones, (encode_Bone b).length = 132 :=
    fun b hm => encode_Bone_length b (hb b hm)
  have hNsize : ∀ n ∈ nodes, (encode_Node n).length = 72 :=
    fun n hm => encode_Node_length n (hn n hm)
  have hVlen := flatMap_length_of_size encode_Vertex 68 vertices hVsize
  have hIlen := flatMap_length_of_size encode_u16 2 indices hIsize
  have hBlen := flatMap_length_of_size encode_Bone 132 bones hBsize
  have hNlen := flatMap_length_of_size encode_Node 72 nodes hNsize
  have hV := decode_array_flatMap decode_Vertex encode_Vertex 68 vertices
    (indices.flatMap encode_u16 ++ (bones.flatMap encode_Bone ++ nodes.flatMap encode_Node))
    hVsize (fun v hm => decode_Vertex_encode v (hv v hm))
  have hI := decode_array_flatMap le_u16 encode_u16 2 indices
    (bones.flatMap encode_Bone ++ nodes.flatMap encode_Node)
    hIsize (fun i hm => le_u16_encode i (hi i hm))
  have hB := decode_array_flatMap decode_Bone encode_Bone 132 bones
    (nodes.flatMap encode_Node) hBsize (fun b hm => decode_Bone_encode b (hb b hm))
  have hN := decode_array_flatMap decode_Node encode_Node 72 nodes []
    hNsize (fun n hm => decode_Node_encode n (hn n hm))
  rw [List.append_nil] at hN
  generalize hVdef : vertices.flatMap encode_Vertex = V at *
  generalize hIdef : indices.flatMap encode_u16 = I at *
  generalize hBdef : bones.flatMap (encode_Bone : Bone α → List Nat) = B at *
  generalize hNdef : nodes.flatMap encode_Node = N at *
  have hbuf : build_buffer vertices indices bones nodes
      = encode_u32 md_magic ++ (encode_u32 vertices.length ++ (encode_u32 indices.length ++
          (encode_u32 bones.length ++ (encode_u32 nodes.length ++ (V ++ (I ++ (B ++ N))))))) := by
    simp only [build_buffer, encode_header, hVdef, hIdef, hBdef, hNdef, List.append_assoc]
  have hlen : (build_buffer vertices indices bones nodes).length
      = 20 + vertices.length * 68 + indices.length * 2 + bones.length * 132
        + nodes.length * 72 := by
    rw [hbuf]
    simp only [List.length_append, encode_u32_length, hVlen, hIlen, hBlen, hNlen]
    omega
  have hmagic : le_u32 (field (build_buffer vertices indices bones nodes) 0 4) = 0xAABBCCDD := by
    rw [hbuf, field_zero_append _ _ _ (encode_u32_length _)]
    exact le_u32_encode md_magic (by decide)
  have hvc : le_u32 (field (build_buffer vertices indices bones nodes) 4 4)
      = vertices.length := by
    rw [hbuf]
    simp [field_skip_append, field_zero_append, encode_u32_length, le_u32_encode, hvl]
  have hic : le_u32 (field (build_buffer vertices indices bones nodes) 8 4)
      = indices.length := by
    rw [hbuf]
    simp [field_skip_append, field_zero_append, encode_u32_length, le_u32_encode, hil]
  have hbc : le_u32 (field (build_buffer vertices indices bones nodes) 12 4)
      = bones.length := by
    rw [hbuf]
    simp [field_skip_append, field_zero_append, encode_u32_length, le_u32_encode, hbl]
  have hnc : le_u32 (field (build_buffer vertices indices bones nodes) 16 4)
      = nodes.length := by
    rw [hbuf]
    simp [field_skip_append, field_zero_append, encode_u32_length, le_u32_encode, hnl]
  have hdV : (build_buffer vertices indices bones nodes).drop 20 = V ++ (I ++ (B ++ N)) := by
    rw [hbuf]
    simp only [← List.append_assoc]
    simp only [List.append_assoc (_ ++ _ ++ _ ++ _ ++ _)]
    exact List.drop_left' (by simp [encode_u32_length])
  have hdI : (build_buffer vertices indices bones nodes).drop (20 + vertices.length * 68)
      = I ++ (B ++ N) := by
    rw [← List.drop_drop, hdV]
    exact List.drop_left' hVlen
  have hdB : (build_buffer vertices indices bones nodes).drop
      (20 + vertices.length * 68 + indices.length * 2) = B ++ N := by
    rw [← List.drop_drop, hdI]
    exact List.drop_left' hIlen
  have hdN : (build_buffer vertices indices bones nodes).drop
      (20 + vertices.length * 68 + indices.length * 2 + bones.length * 132) = N := by
    rw [← List.drop_drop, hdB]
    exact List.drop_left' hBlen
  unfold load_md_mesh
  simp only [hmagic, hvc, hic, hbc, hnc, hlen, sizeof_MdMeshHeader, sizeof_Vertex, sizeof_index,
    sizeof_Bone, sizeof_Node, hdV, hdI, hdB, hdN, hV, hI, hB, hN]
  rw [if_neg (by omega), if_neg (by decide), if_neg (by omega), if_neg (by omega),
    if_neg (by omega), if_neg (by omega), if_neg (by omega)]

/-- C3. Load round trip: for vertex, index, bone and node arrays of their C types, the buffer
built as the 20-byte header (magic `0xAABBCCDD` and the four lengths as little-endian `u32`)
followed without padding by the 68-byte vertex records, the 2-byte index records, the 132-byte
bone records and the 72-byte node records is loaded by `load_md_mesh` into a mesh whose four
counts are the four lengths and whose vertex, index, bone and node arrays are the original
ones, field for field; the three matrix arrays hold `bone_count` identity matrices and the
buffer offsets are zero. -/
theorem load_md_mesh_round_trip {α : Type} [Zero α] [One α] [FloatBits α]
    (vertices : List (Vertex α)) (indices : List Nat) (bones : List (Bone α))
    (nodes : List Node) (h : WellTypedArrays vertices indices bones nodes) :
    load_md_mesh (build_buffer vertices indices bones nodes) =
      LoadResult.loaded
        { vertices := vertices, vertex_count := vertices.length, vertex_buffer_offset := 0,
          indices := indices, index_count := indices.length, index_buffer_offset := 0,
          bones := bones, bone_count := bones.length,
          animation_matrices := List.replicate bones.length Mat4.identity,
          tmp_matrices := List.replicate bones.length Mat4.identity,
          final_pose := List.replicate bones.length Mat4.identity,
          skeleton_nodes := nodes, node_count := nodes.length } :=
  load_build_buffer vertices indices bones nodes h

/-- The witness of C3: a triangle with two bones and two nodes, negative parent index and
negative coordinate included, is of the C types and is read back as it was written. -/
theorem load_md_mesh_round_trip_witness :
    load_md_mesh (build_buffer triangle_vertices triangle_indices two_bones two_nodes) =
      LoadResult.loaded
        { vertices := triangle_vertices, vertex_count := 3, vertex_buffer_offset := 0,
          indices := triangle_indices, index_count := 3, index_buffer_offset := 0,
          bones := two_bones, bone_count := 2,
          animation_matrices := List.replicate 2 Mat4.identity,
          tmp_matrices := List.replicate 2 Mat4.identity,
          final_pose := List.replicate 2 Mat4.identity,
          skeleton_nodes := two_nodes, node_count := 2 } :=
  load_md_mesh_round_trip triangle_vertices triangle_indices two_bones two_nodes (by decide)

/-! ## `load_md_mesh`: the magic number -/

/-- C4. Magic validation: `load_md_mesh` fails with the spec's `FormatError` (the failed
assertion) exactly on the buffers whose first four bytes exist and do not decode to
`0xAABBCCDD`; when it fails so it returns no mesh; a buffer whose magic is `0xAABBCCDD` never
fails so; and the 20-byte header with magic `0x00000000` fails so. -/
theorem load_md_mesh_magic {α : Type} [Zero α] [One α] [FloatBits α] (file_data : List Nat) :
    ((load_md_mesh file_data : LoadResult α).error? = some LoadError.FormatError ↔
      4 ≤ file_data.length ∧ le_u32 (field file_data 0 4) ≠ 0xAABBCCDD) ∧
    ((load_md_mesh file_data : LoadResult α).error? = some LoadError.FormatError →
      (load_md_mesh file_data : LoadResult α) = LoadResult.assertFailed ∧
      (load_md_mesh file_data : LoadResult α).mesh? = none) ∧
    (le_u32 (field file_data 0 4) = 0xAABBCCDD →
      (load_md_mesh file_data : LoadResult α).error? ≠ some LoadError.FormatError) ∧
    (load_md_mesh (encode_header ⟨0x00000000, 10, 0, 0, 0⟩) : LoadResult α)
      = LoadResult.assertFailed := by
  have key : (load_md_mesh file_data : LoadResult α) = LoadResult.assertFailed ↔
      4 ≤ file_data.length ∧ le_u32 (field file_data 0 4) ≠ 0xAABBCCDD := by
    unfold load_md_mesh
    simp only []
    split
    · simp; omega
    · split
      · rename_i h1 h2
        simp only [true_iff]
        exact ⟨by omega, fun h => h2 h.symm⟩
      · rename_i h1 h2
        have hm : le_u32 (field file_data 0 4) = 0xAABBCCDD := by
          by_contra hne
          exact h2 (fun h => hne h.symm)
        repeat' split
        all_goals simp [hm]
  have herr : ∀ r : LoadResult α,
      r.error? = some LoadError.FormatError ↔ r = LoadResult.assertFailed := by
    intro r
    cases r <;> simp [LoadResult.error?]
  refine ⟨(herr _).trans key, ?_, ?_, ?_⟩
  · intro h
    have h' := (herr _).mp h
    exact ⟨h', by rw [h']; rfl⟩
  · intro hm h
    exact ((key.mp ((herr _).mp h)).2) hm
  · rfl

/-! ## `load_md_mesh`: buffers shorter than their header declares -/

theorem le_u32_short (bytes : List Nat) (h : bytes.length < 4) : le_u32 bytes = 0 := by
  match bytes, h with
  | [], _ => rfl
  | [_], _ => rfl
  | [_, _], _ => rfl
  | [_, _, _], _ => rfl
  | _ :: _ :: _ :: _ :: _, h => simp at h; omega

/-- C5 as stated fails: the buffer that consists of the 20-byte header with a valid magic and
`vertexCount = 10` declares 700 bytes; `load_md_mesh` does not check the length, goes on to copy
680 bytes of vertices from behind the end of the buffer, and reports no failure. -/
theorem load_md_mesh_truncation_counterexample :
    (encode_header ⟨md_magic, 10, 0, 0, 0⟩).length = 20 ∧
    required_size (encode_header ⟨md_magic, 10, 0, 0, 0⟩) = 700 ∧
    (load_md_mesh (encode_header ⟨md_magic, 10, 0, 0, 0⟩) : LoadResult Int)
      = LoadResult.readOutOfBounds ∧
    (load_md_mesh (encode_header ⟨md_magic, 10, 0, 0, 0⟩) : LoadResult Int).error?
      ≠ some LoadError.TruncatedInputError := by
  refine ⟨by decide, by decide, by decide, by decide⟩

/-- C5, amended. For a buffer with a valid magic, `load_md_mesh` reads beyond the end of the
buffer exactly when the buffer is shorter than
`20 + 68*vertexCount + 2*indexCount + 132*boneCount + 72*nodeCount`; it has no length check and
reports no failure then.  A buffer at least that long is loaded, with the counts of its header.
In particular the header-only buffer with `vertexCount = 10` is read out of bounds. -/
theorem load_md_mesh_truncated {α : Type} [Zero α] [One α] [FloatBits α]
    (file_data : List Nat) (hmagic : le_u32 (field file_data 0 4) = 0xAABBCCDD) :
    (file_data.length < required_size file_data →
      (load_md_mesh file_data : LoadResult α) = LoadResult.readOutOfBounds ∧
      (load_md_mesh file_data : LoadResult α).error? = none) ∧
    (required_size file_data ≤ file_data.length →
      ∃ mesh, (load_md_mesh file_data : LoadResult α) = LoadResult.loaded mesh ∧
        mesh.vertex_count = le_u32 (field file_data 4 4) ∧
        mesh.index_count = le_u32 (field file_data 8 4) ∧
        mesh.bone_count = le_u32 (field file_data 12 4) ∧
        mesh.node_count = le_u32 (field file_data 16 4)) ∧
    (load_md_mesh (encode_header ⟨md_magic, 10, 0, 0, 0⟩) : LoadResult α)
      = LoadResult.readOutOfBounds := by
  have hlen : ¬ file_data.length < 4 := by
    intro h
    have hshort : (field file_data 0 4).length < 4 := by
      simp only [field, List.drop_zero, List.length_take]
      omega
    rw [le_u32_short _ hshort] at hmagic
    exact absurd hmagic (by decide)
  have hm : ¬ (0xAABBCCDD ≠ le_u32 (field file_data 0 4)) := fun h => h hmagic.symm
  refine ⟨?_, ?_, rfl⟩
  · intro hshort
    have hres : (load_md_mesh file_data : LoadResult α) = LoadResult.readOutOfBounds := by
      unfold load_md_mesh
      unfold required_size at hshort
      simp only [sizeof_MdMeshHeader, sizeof_Vertex, sizeof_index, sizeof_Bone, sizeof_Node]
      rw [if_neg hlen, if_neg hm]
      repeat' split
      all_goals first | rfl | omega
    exact ⟨hres, by rw [hres]; rfl⟩
  · intro hlong
    unfold load_md_mesh
    unfold required_size at hlong
    simp only [sizeof_MdMeshHeader, sizeof_Vertex, sizeof_index, sizeof_Bone, sizeof_Node]
    rw [if_neg hlen, if_neg hm, if_neg (by omega), if_neg (by omega), if_neg (by omega),
      if_neg (by omega), if_neg (by omega)]
    exact ⟨_, rfl, rfl, rfl, rfl, rfl⟩

/-- The witness of C5 as amended: the header-only buffer with `vertexCount = 10` has a valid
magic. -/
theorem load_md_mesh_truncated_witness :
    (20 < required_size (encode_header ⟨md_magic, 10, 0, 0, 0⟩) →
      (load_md_mesh (encode_header ⟨md_magic, 10, 0, 0, 0⟩) : LoadResult Int)
        = LoadResult.readOutOfBounds ∧
      (load_md_mesh (encode_header ⟨md_magic, 10, 0, 0, 0⟩) : LoadResult Int).error? = none) ∧
    (required_size (encode_header ⟨md_magic, 10, 0, 0, 0⟩) ≤ 20 →
      ∃ mesh, (load_md_mesh (encode_header ⟨md_magic, 10, 0, 0, 0⟩) : LoadResult Int)
          = LoadResult.loaded mesh ∧
        mesh.vertex_count = le_u32 (field (encode_header ⟨md_magic, 10, 0, 0, 0⟩) 4 4) ∧
        mesh.index_count = le_u32 (field (encode_header ⟨md_magic, 10, 0, 0, 0⟩) 8 4) ∧
        mesh.bone_count = le_u32 (field (encode_header ⟨md_magic, 10, 0, 0, 0⟩) 12 4) ∧
        mesh.node_count = le_u32 (field (encode_header ⟨md_magic, 10, 0, 0, 0⟩) 16 4)) ∧
    (load_md_mesh (encode_header ⟨md_magic, 10, 0, 0, 0⟩) : LoadResult Int)
      = LoadResult.readOutOfBounds :=
  load_md_mesh_truncated (encode_header ⟨md_magic, 10, 0, 0, 0⟩) (by decide)

/-! ## `load_md_mesh`: no validation of the hierarchy -/

/-- C6 as stated fails: a node at position 2 whose parent index is 2 (itself) or 5 (a forward
reference) is not rejected.  `load_md_mesh` returns the mesh with these nodes and reports no
failure, the hierarchy is not parent-before-child, and `update_skeleton` is run on it: with the
self reference it completes, with the forward reference it reads `skeleton_nodes[5]` out of
bounds. -/
theorem hierarchy_validation_counterexample :
    (load_md_mesh (build_buffer [] [] three_bones (nodes_with_parent 2))
        = LoadResult.loaded (skeleton_mesh (nodes_with_parent 2)) ∧
      ¬ (skeleton_mesh (nodes_with_parent 2)).ParentBeforeChild ∧
      (update_skeleton (skeleton_mesh (nodes_with_parent 2))).isSome = true) ∧
    (load_md_mesh (build_buffer [] [] three_bones (nodes_with_parent 5))
        = LoadResult.loaded (skeleton_mesh (nodes_with_parent 5)) ∧
      ¬ (skeleton_mesh (nodes_with_parent 5)).ParentBeforeChild ∧
      update_skeleton (skeleton_mesh (nodes_with_parent 5)) = none) := by
  refine ⟨⟨?_, by decide, by decide⟩, ?_, by decide, by decide⟩
  · exact load_build_buffer [] [] three_bones (nodes_with_parent 2) (by decide)
  · exact load_build_buffer [] [] three_bones (nodes_with_parent 5) (by decide)

/-- C6, amended. `load_md_mesh` validates no hierarchy and never fails with
`InvalidHierarchyError`: for all bone and node arrays of their C types, whatever the parent
indices and bone indices of the nodes, the buffer built from them is loaded without a failure
into a mesh with exactly these bones and nodes.  The two conditions of the claim are not
checked, but when the loaded mesh meets them `update_skeleton` returns on it. -/
theorem load_md_mesh_accepts_any_hierarchy {α : Type} [Zero α] [One α] [Add α] [Mul α]
    [FloatBits α] (vertices : List (Vertex α)) (indices : List Nat) (bones : List (Bone α))
    (nodes : List Node) (h : WellTypedArrays vertices indices bones nodes) :
    (∀ file_data : List Nat,
      (load_md_mesh file_data : LoadResult α).error? ≠ some LoadError.InvalidHierarchyError) ∧
    ∃ mesh, load_md_mesh (build_buffer vertices indices bones nodes) = LoadResult.loaded mesh ∧
      (LoadResult.loaded mesh).error? = none ∧
      mesh.bones = bones ∧ mesh.bone_count = bones.length ∧
      mesh.skeleton_nodes = nodes ∧ mesh.node_count = nodes.length ∧
      (mesh.BonesInRange → mesh.ParentBeforeChild → ∃ out, update_skeleton mesh = some out) := by
  constructor
  · intro file_data
    cases (load_md_mesh file_data : LoadResult α) <;> simp [LoadResult.error?]
  · refine ⟨_, load_build_buffer vertices indices bones nodes h, rfl, rfl, rfl, rfl, rfl, ?_⟩
    intro hr hp
    have hs : MdMesh.Sized
        { vertices := vertices, vertex_count := vertices.length, vertex_buffer_offset := 0,
          indices := indices, index_count := indices.length, index_buffer_offset := 0,
          bones := bones, bone_count := bones.length,
          animation_matrices := List.replicate bones.length (Mat4.identity : Mat4 α),
          tmp_matrices := List.replicate bones.length Mat4.identity,
          final_pose := List.replicate bones.length Mat4.identity,
          skeleton_nodes := nodes, node_count := nodes.length } := by
      simp [MdMesh.Sized]
    obtain ⟨s, _, _, _, _, hout⟩ := update_skeleton_run_eq hs hr hp.parentsInRange
    exact ⟨_, hout⟩

/-- The witness of C6 as amended: three bones and the nodes whose last one is its own parent
are of their C types. -/
theorem load_md_mesh_accepts_any_hierarchy_witness :
    (∀ file_data : List Nat,
      (load_md_mesh file_data : LoadResult Int).error?
        ≠ some LoadError.InvalidHierarchyError) ∧
    ∃ mesh, load_md_mesh (build_buffer [] [] three_bones (nodes_with_parent 2))
        = LoadResult.loaded mesh ∧
      (LoadResult.loaded mesh).error? = none ∧
      mesh.bones = three_bones ∧ mesh.bone_count = three_bones.length ∧
      mesh.skeleton_nodes = nodes_with_parent 2 ∧
      mesh.node_count = (nodes_with_parent 2).length ∧
      (mesh.BonesInRange → mesh.ParentBeforeChild → ∃ out, update_skeleton mesh = some out) :=
  load_md_mesh_accepts_any_hierarchy [] [] three_bones (nodes_with_parent 2) (by decide)

/-! ## Pose evaluation: bounds safety -/

/-- C12. Bounds safety of evaluation: on a mesh in which `node_count` nodes are present, the
arrays `bones`, `animation_matrices` and `tmp_matrices` have length `bone_count`, every node's
`bone_index` is below `bone_count` and every node's parent index is negative or below the
node's own position, `update_skeleton` returns (no access of the embedding leaves its array)
and, spelled out, for every `i < node_count` the accesses `skeleton_nodes[i]`,
`animation_matrices[bone_index]`, `bones[bone_index]`, `tmp_matrices[bone_index]` and, for a
parent, `skeleton_nodes[parent_index]` and `tmp_matrices[parent_bone_index]` are within bounds.
Two meshes that violate the precondition reach an out-of-range access: one with parent index
5 among 3 nodes, one with bone index 7 among 3 bones. -/
theorem update_skeleton_in_bounds {α : Type} [Add α] [Mul α] (mesh : MdMesh α)
    (hs : mesh.Sized) (hr : mesh.BonesInRange) (hp : mesh.ParentBeforeChild) :
    (∃ out, update_skeleton mesh = some out ∧
      out.tmp_matrices.length = mesh.bone_count) ∧
    (∀ i, i < mesh.node_count → ∃ node, mesh.skeleton_nodes[i]? = some node ∧
      node.bone_index < mesh.animation_matrices.length ∧
      node.bone_index < mesh.bones.length ∧
      node.bone_index < mesh.tmp_matrices.length ∧
      (0 ≤ node.parent_index → ∃ parent,
        mesh.skeleton_nodes[node.parent_index.toNat]? = some parent ∧
        node.parent_index.toNat < mesh.node_count ∧
        parent.bone_index < mesh.tmp_matrices.length)) ∧
    (¬ (skeleton_mesh (nodes_with_parent 5)).ParentsInRange ∧
      update_skeleton (skeleton_mesh (nodes_with_parent 5)) = none) ∧
    (¬ (skeleton_mesh [⟨7, -1, blank_name⟩]).BonesInRange ∧
      update_skeleton (skeleton_mesh [⟨7, -1, blank_name⟩]) = none) := by
  refine ⟨?_, ?_, ⟨by decide, by decide⟩, ⟨by decide, by decide⟩⟩
  · obtain ⟨s, _, hlen, _, _, hout⟩ := update_skeleton_run_eq hs hr hp.parentsInRange
    exact ⟨_, hout, hlen⟩
  · intro i hi
    obtain ⟨hsn, hsb, hsa, hst⟩ := hs
    have hn : mesh.skeleton_nodes[i]? = some mesh.skeleton_nodes[i] :=
      List.getElem?_eq_getElem (by omega)
    generalize mesh.skeleton_nodes[i] = node at hn
    have hb : node.bone_index < mesh.bone_count := hr i hi node hn
    refine ⟨node, hn, by omega, by omega, by omega, fun hpar => ?_⟩
    have hlt : node.parent_index < (i : Int) := hp i hi node hn
    have hpn : mesh.skeleton_nodes[node.parent_index.toNat]?
        = some mesh.skeleton_nodes[node.parent_index.toNat] :=
      List.getElem?_eq_getElem (by omega)
    generalize mesh.skeleton_nodes[node.parent_index.toNat] = parent at hpn
    have hpb : parent.bone_index < mesh.bone_count :=
      hr node.parent_index.toNat (by omega) parent hpn
    exact ⟨parent, hpn, by omega, by omega⟩

/-- The witness of C12: the chain with integer matrices meets the precondition. -/
theorem update_skeleton_in_bounds_witness :
    (∃ out, update_skeleton (chain_mesh (translate_up : Mat4 Int) Mat4.identity Mat4.identity)
        = some out ∧
      out.tmp_matrices.length = 3) ∧
    (∀ i, i < 3 → ∃ node, chain_nodes[i]? = some node ∧
      node.bone_index < 3 ∧ node.bone_index < 3 ∧ node.bone_index < 3 ∧
      (0 ≤ node.parent_index → ∃ parent,
        chain_nodes[node.parent_index.toNat]? = some parent ∧
        node.parent_index.toNat < 3 ∧
        parent.bone_index < 3)) ∧
    (¬ (skeleton_mesh (nodes_with_parent 5)).ParentsInRange ∧
      update_skeleton (skeleton_mesh (nodes_with_parent 5)) = none) ∧
    (¬ (skeleton_mesh [⟨7, -1, blank_name⟩]).BonesInRange ∧
      update_skeleton (skeleton_mesh [⟨7, -1, blank_name⟩]) = none) :=
  update_skeleton_in_bounds (chain_mesh (translate_up : Mat4 Int) Mat4.identity Mat4.identity)
    (by decide) (by decide) (by decide)

/-! ## `check_weights`: what the diagnostic reports -/

/-- The loop of `check_weights` prints one line per vertex, in index order, with the sum of the
vertex's four weights. -/
theorem check_weights_lines_total {α : Type} [Add α] (mesh : MdMesh α) (k : Nat)
    (hk : k ≤ mesh.vertices.length) :
    ∃ lines, check_weights_lines mesh k = some lines ∧ lines.length = k ∧
      ∀ i, i < k → ∃ vertex, mesh.vertices[i]? = some vertex ∧
        lines[i]? = some (i, weightSum vertex) := by
  induction k with
  | zero => exact ⟨[], rfl, rfl, fun i hi => absurd hi (Nat.not_lt_zero i)⟩
  | succ k ih =>
    obtain ⟨lines, hrun, hlen, hinv⟩ := ih (by omega)
    have hv : mesh.vertices[k]? = some mesh.vertices[k] := List.getElem?_eq_getElem (by omega)
    generalize mesh.vertices[k] = vertex at hv
    have hit : check_weights_iteration mesh k = some (k, weightSum vertex) := by
      simp only [check_weights_iteration, hv, weightSum]
    refine ⟨lines ++ [(k, weightSum vertex)], ?_, by simp [hlen], ?_⟩
    · simp only [check_weights_lines, hrun, hit]
    · intro i hi
      by_cases hik : i = k
      · subst hik
        refine ⟨vertex, hv, ?_⟩
        rw [List.getElem?_append_right (by omega)]
        simp [hlen]
      · obtain ⟨v, hvi, hli⟩ := hinv i (by omega)
        refine ⟨v, hvi, ?_⟩
        rw [List.getElem?_append_left (by omega)]
        exact hli

/-- C11 as stated fails: no vertex is flagged.  With integers standing in for the weights, a
mesh of a vertex with weights `[1,0,0,0]` and a vertex with weights `[2,2,0,0]` has the spec's
warning list `[1]` (the second sum is 4, not 1), but all that `check_weights` produces are the
two report lines; it has no tolerance test and builds no warning list. -/
theorem check_weights_flag_counterexample :
    weight_warnings (fun s : Int => decide (s ≠ 1))
        [weighted_vertex 1 0 0 0, weighted_vertex 2 2 0 0] = [1] ∧
    check_weights (vertex_mesh [weighted_vertex (1 : Int) 0 0 0, weighted_vertex 2 2 0 0])
      = some (vertex_mesh [weighted_vertex 1 0 0 0, weighted_vertex 2 2 0 0],
          [(0, 1), (1, 4)]) := by
  refine ⟨by decide, by decide⟩

/-- C11, amended. On a mesh in which `vertex_count` vertices are present, `check_weights`
returns, leaves the mesh unchanged, and prints exactly one line per vertex index `i` in
`[0, vertex_count)`, in increasing order, with the sum `w0 + w1 + w2 + w3` of that vertex's four
bone weights added left to right; it prints nothing else, so no vertex is flagged whatever its
sum.  In particular weights `[1,0,0,0]` are reported with the sum 1. -/
theorem check_weights_report {α : Type} [Zero α] [One α] [Add α] [Mul α] [ExactUnits α]
    (mesh : MdMesh α) (hv : mesh.vertex_count ≤ mesh.vertices.length) :
    (∃ lines, check_weights mesh = some (mesh, lines) ∧
      lines.length = mesh.vertex_count ∧
      ∀ i, i < mesh.vertex_count → ∃ vertex, mesh.vertices[i]? = some vertex ∧
        lines[i]? = some (i, vertex.bone_weights.e0 + vertex.bone_weights.e1 +
          vertex.bone_weights.e2 + vertex.bone_weights.e3)) ∧
    check_weights (vertex_mesh [weighted_vertex (1 : α) 0 0 0])
      = some (vertex_mesh [weighted_vertex 1 0 0 0], [(0, 1)]) := by
  constructor
  · obtain ⟨lines, hrun, hlen, hinv⟩ := check_weights_lines_total mesh mesh.vertex_count hv
    refine ⟨lines, by simp only [check_weights, hrun], hlen, ?_⟩
    intro i hi
    obtain ⟨vertex, hvi, hli⟩ := hinv i hi
    exact ⟨vertex, hvi, hli⟩
  · simp [check_weights, check_weights_lines, check_weights_iteration, vertex_mesh,
      weighted_vertex, ExactUnits.one_add_zero]

/-- The witness of C11 as amended: the integer mesh of two vertices, of which the second has
the weight sum 4, holds its two vertices. -/
theorem check_weights_report_witness :
    (∃ lines,
      check_weights (vertex_mesh [weighted_vertex (1 : Int) 0 0 0, weighted_vertex 2 2 0 0])
        = some (vertex_mesh [weighted_vertex 1 0 0 0, weighted_vertex 2 2 0 0], lines) ∧
      lines.length = 2 ∧
      ∀ i, i < 2 → ∃ vertex,
        [weighted_vertex (1 : Int) 0 0 0, weighted_vertex 2 2 0 0][i]? = some vertex ∧
        lines[i]? = some (i, vertex.bone_weights.e0 + vertex.bone_weights.e1 +
          vertex.bone_weights.e2 + vertex.bone_weights.e3)) ∧
    check_weights (vertex_mesh [weighted_vertex (1 : Int) 0 0 0])
      = some (vertex_mesh [weighted_vertex 1 0 0 0], [(0, 1)]) :=
  check_weights_report (vertex_mesh [weighted_vertex (1 : Int) 0 0 0, weighted_vertex 2 2 0 0])
    (by decide)

/-! ## Pose evaluation: locality of a local transform -/

/-- Two runs whose local matrices differ at bone index `k` only agree, after `n` iterations, on
the entry of every node below `n` that neither carries `k` nor descends from the node that
does. -/
theorem pose_local_upto {α : Type} [Add α] [Mul α] {mesh : MdMesh α}
    (anim : List (Mat4 α)) (k : Nat)
    (hlen : anim.length = mesh.animation_matrices.length)
    (hdiff : ∀ b, b < mesh.bone_count → b ≠ k → anim[b]? = mesh.animation_matrices[b]?)
    (hs : mesh.Sized) (hr : mesh.BonesInRange) (hp : mesh.ParentBeforeChild)
    (hd : mesh.DistinctBones) (n : Nat) (hn : n ≤ mesh.node_count) :
    ∃ s1 s2, update_skeleton_pose mesh n = some s1 ∧
      update_skeleton_pose { mesh with animation_matrices := anim } n = some s2 ∧
      s1.tmp.length = mesh.bone_count ∧ s2.tmp.length = mesh.bone_count ∧
      ∀ i node fuel, i < n → mesh.skeleton_nodes[i]? = some node → i < fuel →
        under_bone mesh k fuel i = false →
        s1.tmp[node.bone_index]? = s2.tmp[node.bone_index]? := by
  have hs2 : MdMesh.Sized { mesh with animation_matrices := anim } :=
    ⟨hs.1, hs.2.1, hlen.trans hs.2.2.1, hs.2.2.2⟩
  have hr2 : MdMesh.BonesInRange { mesh with animation_matrices := anim } := hr
  have hq2 : MdMesh.ParentsInRange { mesh with animation_matrices := anim } :=
    hp.parentsInRange
  induction n with
  | zero =>
    exact ⟨_, _, rfl, rfl, hs.2.2.2, hs.2.2.2, fun i _ _ hi => absurd hi (Nat.not_lt_zero i)⟩
  | succ n ih =>
    obtain ⟨s1, s2, hrun1, hrun2, hlen1, hlen2, hinv⟩ := ih (by omega)
    obtain ⟨node, l1, hnode, hl1, hb, hcase1⟩ :=
      pose_step hs hr hp.parentsInRange (by omega) hrun1 hlen1
    obtain ⟨node2, l2, hnode2, hl2, _, hcase2⟩ :=
      pose_step hs2 hr2 hq2 (show n < mesh.node_count by omega) hrun2 hlen2
    have hnode2' : mesh.skeleton_nodes[n]? = some node2 := hnode2
    have hnode_eq : node2 = node := Option.some.inj (hnode2'.symm.trans hnode)
    subst hnode_eq
    have hl2' : anim[node2.bone_index]? = some l2 := hl2
    have hpk : node2.parent_index < (n : Int) := hp n (by omega) node2 hnode
    -- what it means for the new node to be outside the subtree of `k`
    have hout : ∀ fuel, n < fuel → under_bone mesh k fuel n = false →
        node2.bone_index ≠ k ∧
        (0 ≤ node2.parent_index →
          under_bone mesh k (fuel - 1) node2.parent_index.toNat = false) := by
      intro fuel hf hu
      obtain ⟨f, rfl⟩ : ∃ f, fuel = f + 1 := ⟨fuel - 1, by omega⟩
      simp only [under_bone, hnode, Bool.or_eq_false_iff, beq_eq_false_iff_ne, ne_eq,
        Bool.and_eq_false_imp, decide_eq_true_eq] at hu
      exact ⟨hu.1, fun h => hu.2 h⟩
    have hfinish : ∀ v1 v2 : Mat4 α,
        (∀ fuel, n < fuel → under_bone mesh k fuel n = false → v1 = v2) →
        ∀ i ni fuel, i < n + 1 → mesh.skeleton_nodes[i]? = some ni → i < fuel →
          under_bone mesh k fuel i = false →
          (s1.tmp.set node2.bone_index v1)[ni.bone_index]?
            = (s2.tmp.set node2.bone_index v2)[ni.bone_index]? := by
      intro v1 v2 hv i ni fuel hi hni hf hu
      by_cases hin : i = n
      · subst hin
        have hni_eq : ni = node2 := Option.some.inj (hni.symm.trans hnode)
        subst hni_eq
        rw [hv fuel hf hu, List.getElem?_set_self (by omega),
          List.getElem?_set_self (by omega)]
      · have hne : node2.bone_index ≠ ni.bone_index := fun h =>
          hin (hd i (by omega) n (by omega) ni hni node2 hnode h.symm)
        rw [List.getElem?_set_ne hne, List.getElem?_set_ne hne]
        exact hinv i ni fuel (by omega) hni hf hu
    have hlocal : ∀ fuel, n < fuel → under_bone mesh k fuel n = false → l1 = l2 := by
      intro fuel hf hu
      have hne := (hout fuel hf hu).1
      rw [hdiff _ hb hne, hl1] at hl2'
      exact Option.some.inj hl2'
    rcases hcase1 with ⟨hroot, hnext1⟩ | ⟨hpar, parent, wp1, hpn, hwp1, hnext1⟩
    · rcases hcase2 with ⟨_, hnext2⟩ | ⟨hpar2, _⟩
      · exact ⟨_, _, hnext1, hnext2, by simp [hlen1], by simp [hlen2],
          hfinish l1 l2 hlocal⟩
      · omega
    · rcases hcase2 with ⟨hroot2, _⟩ | ⟨_, parent2, wp2, hpn2, hwp2, hnext2⟩
      · omega
      · have hpn2' : mesh.skeleton_nodes[node2.parent_index.toNat]? = some parent2 := hpn2
        have hpar_eq : parent2 = parent := Option.some.inj (hpn2'.symm.trans hpn)
        subst hpar_eq
        refine ⟨_, _, hnext1, hnext2, by simp [hlen1], by simp [hlen2],
          hfinish (wp1 * l1) (wp2 * l2) ?_⟩
        intro fuel hf hu
        have hup := (hout fuel hf hu).2 hpar
        have hagree := hinv node2.parent_index.toNat parent2 (fuel - 1) (by omega) hpn
          (by omega) hup
        rw [hwp1, hwp2] at hagree
        rw [Option.some.inj hagree, hlocal fuel hf hu]

/-- C13. Locality of a local transform: on a parent-before-child hierarchy with in-range,
pairwise distinct bone indices, if a second `animation_matrices` array of the same length
differs from the first at index `k` only, then `update_skeleton` returns for both and the
resulting `tmp_matrices` agree at the bone of every node that neither carries `k` nor descends
from the node that carries `k` (for every bound `fuel` above the node's position on the search
up to the root). -/
theorem update_skeleton_locality {α : Type} [Add α] [Mul α] (mesh : MdMesh α)
    (anim : List (Mat4 α)) (k : Nat)
    (hlen : anim.length = mesh.animation_matrices.length)
    (hdiff : ∀ b, b < mesh.bone_count → b ≠ k → anim[b]? = mesh.animation_matrices[b]?)
    (hs : mesh.Sized) (hr : mesh.BonesInRange) (hp : mesh.ParentBeforeChild)
    (hd : mesh.DistinctBones) :
    ∃ o1 o2, update_skeleton mesh = some o1 ∧
      update_skeleton { mesh with animation_matrices := anim } = some o2 ∧
      ∀ i node fuel, i < mesh.node_count → mesh.skeleton_nodes[i]? = some node →
        i < fuel → under_bone mesh k fuel i = false →
        o1.tmp_matrices[node.bone_index]? = o2.tmp_matrices[node.bone_index]? := by
  have hs2 : MdMesh.Sized { mesh with animation_matrices := anim } :=
    ⟨hs.1, hs.2.1, hlen.trans hs.2.2.1, hs.2.2.2⟩
  have hr2 : MdMesh.BonesInRange { mesh with animation_matrices := anim } := hr
  have hq2 : MdMesh.ParentsInRange { mesh with animation_matrices := anim } :=
    hp.parentsInRange
  obtain ⟨s1, hrun1, _, _, _, hout1⟩ := update_skeleton_run_eq hs hr hp.parentsInRange
  obtain ⟨s2, hrun2, _, _, _, hout2⟩ := update_skeleton_run_eq hs2 hr2 hq2
  obtain ⟨t1, t2, h1, h2, _, _, hagree⟩ :=
    pose_local_upto anim k hlen hdiff hs hr hp hd mesh.node_count (le_refl _)
  have e1 : t1 = s1 := Option.some.inj (h1.symm.trans hrun1)
  have e2 : t2 = s2 := Option.some.inj (h2.symm.trans hrun2)
  subst e1; subst e2
  exact ⟨_, _, hout1, hout2, fun i node fuel hi hnode hf hu =>
    hagree i node fuel hi hnode hf hu⟩

/-- The witness of C13: in the integer chain the local matrix of the mid bone 1 is replaced by
`translate(0,1,0)`; the root, at position 0, is outside the subtree of bone 1. -/
theorem update_skeleton_locality_witness :
    under_bone (chain_mesh (translate_up : Mat4 Int) Mat4.identity Mat4.identity) 1 1 0 = false ∧
    ∃ o1 o2,
      update_skeleton (chain_mesh (translate_up : Mat4 Int) Mat4.identity Mat4.identity)
        = some o1 ∧
      update_skeleton
        { chain_mesh (translate_up : Mat4 Int) Mat4.identity Mat4.identity with
          animation_matrices := [translate_up, translate_up, Mat4.identity] } = some o2 ∧
      ∀ i node fuel, i < 3 → chain_nodes[i]? = some node → i < fuel →
        under_bone (chain_mesh (translate_up : Mat4 Int) Mat4.identity Mat4.identity) 1
          fuel i = false →
        o1.tmp_matrices[node.bone_index]? = o2.tmp_matrices[node.bone_index]? :=
  ⟨by decide,
    update_skeleton_locality (chain_mesh (translate_up : Mat4 Int) Mat4.identity Mat4.identity)
      [translate_up, translate_up, Mat4.identity] 1 (by decide) (by decide) (by decide)
      (by decide) (by decide) (by decide)⟩

end Vkal
